import Mathlib

/-!
# Attiny212 clock: a shallow embedding of the firmware

The firmware keeps a date/time record (`solar_params`), advances it from the
RTC overflow interrupt, recomputes the solar position on every tick and accepts
a command frame over the USART that overwrites the record.

Conventions of the embedding (target: avr-gcc, ATtiny212):

* `uint8_t` / `uint16_t` values are `Nat`, reduced `% 256` / `% 65536` where the
  C code can wrap; `int8_t` and `int` (16 bit on AVR) values are `Int`, reduced
  with `Int.bmod` on conversion;
* `char` is a byte, a `Nat`; a C string is the list of its bytes before the
  terminating NUL;
* `double` is an abstract type `F` carrying the arithmetic the code uses
  (`DoubleArith`); the libm / stdio services on doubles are a parameter
  (`Libm`);
* an execution that would read or write outside an object has no result
  (`none`).
-/

namespace Attiny212Clock

/-! ## Machine integers -/

/-- Conversion of an integer to `int` (16 bit two's complement on AVR). -/
def toInt16 (v : Int) : Int := Int.bmod v 65536

/-- Conversion of an integer to `int8_t`. -/
def toInt8 (v : Int) : Int := Int.bmod v 256

/-- Conversion of an integer to `uint16_t`. -/
def toUInt16 (v : Int) : Nat := (v % 65536).toNat

/-- Conversion of an integer to `uint8_t`. -/
def toUInt8 (v : Int) : Nat := (v % 256).toNat

/-! ## Doubles -/

/-- The arithmetic on `double` that the firmware uses: the four operations,
negation, decimal literals, conversion from integers, `floor`, `fmod` and the
order test. -/
class DoubleArith (F : Type) extends Add F, Sub F, Mul F, Div F, Neg F, OfScientific F where
  /-- Conversion `(double) i` of an integer. -/
  ofInt : Int → F
  /-- C `floor`. -/
  floor : F → F
  /-- C `fmod`. -/
  fmod : F → F → F
  /-- C `x < y`. -/
  lt : F → F → Bool

/-- The libm and stdio services on doubles that the firmware calls. -/
structure Libm (F : Type) where
  /-- C `sin`. -/
  sin : F → F
  /-- C `cos`. -/
  cos : F → F
  /-- C `tan`. -/
  tan : F → F
  /-- C `asin`. -/
  asin : F → F
  /-- C `atan2`. -/
  atan2 : F → F → F
  /-- C `atof` on the bytes of a string. -/
  atof : List Nat → F
  /-- The bytes `printf` writes for a `%3.4f` conversion. -/
  fmt34f : F → List Nat

/-! ## Cosmos.h: the shared record -/

/-- `SolarPositionParameters` (Cosmos.h): the record `solar_params`. -/
structure SolarPositionParameters (F : Type) where
  /-- `double latitude` -/
  latitude : F
  /-- `double longitude` -/
  longitude : F
  /-- `int8_t timezone` -/
  timezone : Int
  /-- `uint16_t year` -/
  year : Nat
  /-- `uint8_t month` -/
  month : Nat
  /-- `uint8_t day` -/
  day : Nat
  /-- `uint8_t hour` -/
  hour : Nat
  /-- `uint8_t minute` -/
  minute : Nat
  /-- `uint8_t second` -/
  second : Nat
  /-- `uint8_t hundreds` (the spec's tickFraction) -/
  hundreds : Nat
  /-- `double elevation` -/
  elevation : F
  /-- `double azimuth` -/
  azimuth : F

/-! ## RTC.c: calendar helpers -/

/-- `daysInMonth[]` (RTC.c line 10). -/
def daysInMonth : List Nat := [31, 28, 31, 30, 31, 30, 31, 31, 30, 31, 30, 31]

/-- `isLeapYear` (RTC.c lines 18-20); the result is the `uint8_t` 0 or 1. -/
def isLeapYear (year : Nat) : Nat :=
  if (year % 4 = 0 ∧ year % 100 ≠ 0) ∨ year % 400 = 0 then 1 else 0

/-- The array read `daysInMonth[i]` for an `int` index: defined only inside the
twelve entries. -/
def daysInMonthAt (i : Int) : Option Nat :=
  if 0 ≤ i then daysInMonth.get? i.toNat else none

/-! ## Cosmos.c: the solar position engine -/

section Engine

variable {F : Type} [DoubleArith F]

/-- `DEG_TO_RAD` (Cosmos.h). -/
def DEG_TO_RAD : F := 0.01745329251994329576923690768489

/-- `RAD_TO_DEG` (Cosmos.h). -/
def RAD_TO_DEG : F := 57.295779513082320876798154814105

/-- `march_last_sunday` of `is_daylight_saving_time` (Cosmos.c line 20), on
16 bit `int`. -/
def march_last_sunday (year : Int) : Int :=
  31 - Int.tmod (Int.tdiv (toInt16 (5 * year)) 4 + 4) 7

/-- `october_last_sunday` of `is_daylight_saving_time` (Cosmos.c line 21), on
16 bit `int`. -/
def october_last_sunday (year : Int) : Int :=
  31 - Int.tmod (Int.tdiv (toInt16 (5 * year)) 4 + 1) 7

/-- `is_daylight_saving_time` (Cosmos.c lines 19-36). -/
def is_daylight_saving_time (year month day : Int) : Bool :=
  if month > 3 ∧ month < 10 then true
  else if month = 3 ∧ day ≥ march_last_sunday year then true
  else if month = 10 ∧ day < october_last_sunday year then true
  else false

/-- `calculate_julian_day` (Cosmos.c lines 50-62). `hundreds / 36000` is the
integer division of the source. -/
def calculate_julian_day (year month day hour minute second hundreds : Int) : F :=
  let year1 := if month ≤ 2 then toInt16 (year - 1) else year
  let month1 := if month ≤ 2 then toInt16 (month + 12) else month
  let A := Int.tdiv year1 100
  let B := 2 - A + Int.tdiv A 4
  DoubleArith.floor (365.25 * DoubleArith.ofInt (toInt16 (year1 + 4716)))
    + DoubleArith.floor (30.6001 * DoubleArith.ofInt (toInt16 (month1 + 1)))
    + DoubleArith.ofInt day + DoubleArith.ofInt B - 1524.5
    + (DoubleArith.ofInt hour + DoubleArith.ofInt minute / 60.0
        + DoubleArith.ofInt second / 3600.0
        + DoubleArith.ofInt (Int.tdiv hundreds 36000)) / DoubleArith.ofInt 24

/-- `calculate_solar_mean_anomaly` (Cosmos.c lines 70-72). -/
def calculate_solar_mean_anomaly (julian_century : F) : F :=
  DoubleArith.fmod (357.52911 + julian_century * (35999.05029 - 0.0001537 * julian_century)) 360.0

/-- `calculate_true_anomaly` (Cosmos.c lines 81-86). -/
def calculate_true_anomaly (L : Libm F) (mean_anomaly julian_century : F) : F :=
  let C := (1.914602 - julian_century * (0.004817 + 0.000014 * julian_century))
        * L.sin (DEG_TO_RAD * mean_anomaly)
      + (0.019993 - 0.000101 * julian_century)
        * L.sin (DoubleArith.ofInt 2 * DEG_TO_RAD * mean_anomaly)
      + 0.000289 * L.sin (DoubleArith.ofInt 3 * DEG_TO_RAD * mean_anomaly)
  mean_anomaly + C

/-- `calculate_solar_apparent_longitude` (Cosmos.c lines 95-98). -/
def calculate_solar_apparent_longitude (L : Libm F) (true_longitude julian_century : F) : F :=
  let omega := 125.04 - 1934.136 * julian_century
  true_longitude - 0.00569 - 0.00478 * L.sin (DEG_TO_RAD * omega)

/-- `calculate_obliquity_of_ecliptic` (Cosmos.c lines 106-108). -/
def calculate_obliquity_of_ecliptic (julian_century : F) : F :=
  23.439292 - julian_century
    * (0.013004167 + 0.0000001639 * julian_century
        - 0.0000005036 * julian_century * julian_century)

/-- `calculate_solar_declination` (Cosmos.c lines 117-119). -/
def calculate_solar_declination (L : Libm F) (apparent_longitude obliquity : F) : F :=
  L.asin (L.sin (DEG_TO_RAD * obliquity) * L.sin (DEG_TO_RAD * apparent_longitude)) * RAD_TO_DEG

/-- `calculate_solar_distance` (Cosmos.c lines 127-133). -/
def calculate_solar_distance (L : Libm F) (julian_century : F) : F :=
  let M := calculate_solar_mean_anomaly julian_century
  let M_rad := DEG_TO_RAD * M
  1.00014 - 0.01671 * L.cos M_rad - 0.00014 * L.cos (DoubleArith.ofInt 2 * M_rad)

/-- `calculate_atmospheric_refraction` (Cosmos.c lines 142-152). -/
def calculate_atmospheric_refraction (L : Libm F) (elevation solar_distance : F) : F :=
  if DoubleArith.lt (-(1.0 : F)) elevation then
    let tan_elevation := L.tan (DEG_TO_RAD * (elevation + 10.3 / (elevation + 5.11)))
    let refrac_correction := 0.0167 / tan_elevation
    let distance_correction := 1.0 + 0.001 * (solar_distance - 1.0)
    refrac_correction * distance_correction
  else 0.0

/-- `calculate_solar_position` (Cosmos.c lines 160-215), as a transformer of
`solar_params`. The three stores to the record are kept as three successive
record updates, and every later read of `solar_params.elevation` reads the
updated record, as in the source. -/
def calculate_solar_position (L : Libm F) (sp : SolarPositionParameters F) :
    SolarPositionParameters F :=
  let timezone_offset : Int :=
    sp.timezone + (if is_daylight_saving_time (toInt16 sp.year) sp.month sp.day then 1 else 0)
  let JD : F := calculate_julian_day (toInt16 sp.year) sp.month sp.day
    ((sp.hour : Int) - timezone_offset) sp.minute sp.second sp.hundreds
  let JC : F := (JD - 2451545.0) / 36525.0
  let M := calculate_solar_mean_anomaly JC
  let true_anomaly := calculate_true_anomaly L M JC
  let true_longitude :=
    DoubleArith.fmod (280.46646 + JC * (36000.76983 + JC * 0.0003032)) 360.0 + (true_anomaly - M)
  let apparent_longitude := calculate_solar_apparent_longitude L true_longitude JC
  let obliquity := calculate_obliquity_of_ecliptic JC
  let declination := calculate_solar_declination L apparent_longitude obliquity
  let eq_time : F := 4.0 * (280.46646 + 36000.76983 * JC - apparent_longitude
    + (2.466 * L.sin (DoubleArith.ofInt 2 * DEG_TO_RAD * (280.46646 + 36000.76983 * JC)))
    - (0.053 * L.sin (DoubleArith.ofInt 4 * DEG_TO_RAD * (280.46646 + 36000.76983 * JC))))
  let solar_time : F :=
    (DoubleArith.ofInt ((sp.hour : Int) * 60 + sp.minute)
      + (DoubleArith.ofInt sp.second + DoubleArith.ofInt sp.hundreds / 10.0) / 60.0
      + eq_time + 4.0 * sp.longitude - 60.0 * DoubleArith.ofInt timezone_offset) / 60.0
  let hour_angle : F := (solar_time - 12.0) * 15.0
  let latitude_rad := sp.latitude * DEG_TO_RAD
  let declination_rad := declination * DEG_TO_RAD
  let hour_angle_rad := hour_angle * DEG_TO_RAD
  let sin_elevation := L.sin latitude_rad * L.sin declination_rad
    + L.cos latitude_rad * L.cos declination_rad * L.cos hour_angle_rad
  -- solar_params.elevation = asin(sin_elevation) * RAD_TO_DEG;
  let sp1 := { sp with elevation := L.asin sin_elevation * RAD_TO_DEG }
  let solar_distance := calculate_solar_distance L JC
  -- solar_params.elevation += calculate_atmospheric_refraction(...);
  let sp2 := { sp1 with
    elevation := sp1.elevation + calculate_atmospheric_refraction L sp1.elevation solar_distance }
  let sin_azimuth := (L.cos declination_rad * L.sin (hour_angle * DEG_TO_RAD))
    / L.cos (sp2.elevation * DEG_TO_RAD)
  let cos_azimuth := (L.sin declination_rad - L.sin latitude_rad * L.sin (sp2.elevation * DEG_TO_RAD))
    / (L.cos latitude_rad * L.cos (sp2.elevation * DEG_TO_RAD))
  let azimuth_rad := L.atan2 sin_azimuth cos_azimuth
  let azimuth_temp := azimuth_rad * RAD_TO_DEG
  let azimuth_temp1 :=
    if DoubleArith.lt (DoubleArith.ofInt 0) hour_angle then 360.0 - azimuth_temp else azimuth_temp
  let azimuth_temp2 := DoubleArith.fmod azimuth_temp1 360.0
  let azimuth_temp3 :=
    if DoubleArith.lt azimuth_temp2 (DoubleArith.ofInt 0) then azimuth_temp2 + 360.0
    else azimuth_temp2
  -- solar_params.azimuth = azimuth_temp;
  { sp2 with azimuth := azimuth_temp3 }

end Engine

/-! ## stdio: the integer conversions of `printf` -/

/-- Decimal digits (ASCII) of `n`, most significant first, in front of `acc`;
`fuel` bounds the number of digits. -/
def digitsAux : Nat → Nat → List Nat → List Nat
  | 0, _, acc => acc
  | fuel + 1, n, acc =>
    if n < 10 then (48 + n) :: acc else digitsAux fuel (n / 10) ((48 + n % 10) :: acc)

/-- Decimal digits (ASCII) of `n`; `0` prints as one digit. -/
def decDigits (n : Nat) : List Nat := digitsAux (n + 1) n []

/-- The bytes `printf` writes for `%<width>d` (space padded on the left) or
`%0<width>d` (zero padded after the sign). The width is a minimum: a longer
number is printed in full. -/
def fmtInt (width : Nat) (zeroPad : Bool) (v : Int) : List Nat :=
  let ds := decDigits v.natAbs
  let sign : List Nat := if v < 0 then [45] else []
  let pad := width - (sign.length + ds.length)
  if zeroPad then sign ++ List.replicate pad 48 ++ ds
  else List.replicate pad 32 ++ sign ++ ds

/-! ## RTC.c: the tick handler -/

section Tick

variable {F : Type} [DoubleArith F]

/-- What the interrupt handler does to its environment, in program order. -/
inductive Event where
  /-- `RTC.INTFLAGS = RTC_OVF_bm` -/
  | intflagsClear
  /-- `PORTA.OUTTGL = PIN5_bm` -/
  | ledToggle
  /-- the call `calculate_solar_position()` -/
  | solarPosition
  /-- the bytes written by the call of `printf` -/
  | printf (bytes : List Nat)
  deriving DecidableEq

/-- `PIN1_bm`. -/
def PIN1_bm : Nat := 2

/-- The bytes of the telemetry frame: the `printf` of RTC.c lines 47-61 with
format `"<%4d%02d%02d%02d%02d%02d%1d|%3.4f|%3.4f|%3.4f|%3.4f|%2d>\r\n"`. The
`uint16_t` year is read by `%d` as an `int`. -/
def telemetryFrame (L : Libm F) (sp : SolarPositionParameters F) : List Nat :=
  [60] ++ fmtInt 4 false (toInt16 sp.year) ++ fmtInt 2 true sp.month ++ fmtInt 2 true sp.day
    ++ fmtInt 2 true sp.hour ++ fmtInt 2 true sp.minute ++ fmtInt 2 true sp.second
    ++ fmtInt 1 false sp.hundreds
    ++ [124] ++ L.fmt34f sp.azimuth ++ [124] ++ L.fmt34f sp.elevation
    ++ [124] ++ L.fmt34f sp.latitude ++ [124] ++ L.fmt34f sp.longitude
    ++ [124] ++ fmtInt 2 false sp.timezone ++ [62, 13, 10]

/-- The time increment of the handler (RTC.c lines 64-106): one single-pass
cascading carry. The read `daysInMonth[month - 1]` has no result outside the
table. -/
def timeIncrement (sp : SolarPositionParameters F) : Option (SolarPositionParameters F) :=
  let sp := { sp with hundreds := (sp.hundreds + 1) % 256 }
  if sp.hundreds ≥ 20 then
    let sp := { sp with hundreds := 0, second := (sp.second + 1) % 256 }
    if sp.second ≥ 60 then
      let sp := { sp with second := 0, minute := (sp.minute + 1) % 256 }
      if sp.minute ≥ 60 then
        let sp := { sp with minute := 0, hour := (sp.hour + 1) % 256 }
        if sp.hour ≥ 24 then
          let sp := { sp with hour := 0, day := (sp.day + 1) % 256 }
          match daysInMonthAt ((sp.month : Int) - 1) with
          | none => none
          | some d0 =>
            let daysThisMonth := if sp.month = 2 ∧ isLeapYear sp.year ≠ 0 then 29 else d0
            if sp.day > daysThisMonth then
              let sp := { sp with day := 1, month := (sp.month + 1) % 256 }
              if sp.month > 12 then
                some { sp with month := 1, year := (sp.year + 1) % 65536 }
              else some sp
            else some sp
        else some sp
      else some sp
    else some sp
  else some sp

/-- `ISR(RTC_CNT_vect)` (RTC.c lines 37-114). `portb_in` is the value read from
`PORTB.IN`; the result is the new `solar_params` and the trace of events. -/
def ISR_RTC_CNT_vect (L : Libm F) (portb_in : Nat) (sp : SolarPositionParameters F) :
    Option (SolarPositionParameters F × List Event) :=
  if portb_in &&& PIN1_bm ≠ 0 then
    let sp1 := calculate_solar_position L sp
    let frame := telemetryFrame L sp1
    match timeIncrement sp1 with
    | none => none
    | some sp2 =>
      some (sp2, [Event.intflagsClear, Event.ledToggle, Event.solarPosition, Event.printf frame])
  else some (sp, [Event.intflagsClear])

end Tick

/-! ## libc: the string services used by the command protocol

`strtok`, `sscanf`, `atoi` follow ISO C (7.24.5.8, 7.21.6.2, 7.22.1.2). A string
is the list of its bytes, the terminating NUL excluded. -/

/-- The C string stored at the start of `mem`: the bytes before the first NUL;
no result when `mem` holds no NUL (the string would run past the object). -/
def cString : List Nat → Option (List Nat)
  | [] => none
  | c :: cs => if c = 0 then some [] else (cString cs).map (c :: ·)

/-- C `isspace` in the "C" locale. -/
def isspace (c : Nat) : Bool := c = 32 ∨ (9 ≤ c ∧ c ≤ 13)

/-- C `isdigit`. -/
def isdigit (c : Nat) : Bool := 48 ≤ c ∧ c ≤ 57

/-- Skip leading white space. -/
def skipSpace : List Nat → List Nat
  | [] => []
  | c :: cs => if isspace c then skipSpace cs else c :: cs

/-- One call of `strtok(_, delim)` with a single delimiter byte, on the string
at the current position: the token (`none` for a NULL result) and the position
saved for the next call. Leading delimiters are skipped; the token runs to the
next delimiter, which is consumed, or to the end of the string. -/
def strtok (delim : Nat) (s : List Nat) : Option (List Nat) × List Nat :=
  match s.dropWhile (· = delim) with
  | [] => (none, [])
  | c :: cs =>
    (some ((c :: cs).takeWhile (· ≠ delim)), ((c :: cs).dropWhile (· ≠ delim)).drop 1)

/-- Read at most `width` decimal digits, accumulating onto `acc`: the value and
the unread input. -/
def scanDigits : Nat → Nat → List Nat → Nat × List Nat
  | 0, acc, s => (acc, s)
  | _ + 1, acc, [] => (acc, [])
  | w + 1, acc, c :: cs =>
    if isdigit c then scanDigits w (acc * 10 + (c - 48)) cs else (acc, c :: cs)

/-- One `%<width>u` conversion of `sscanf`: white space is skipped, an optional
sign counts against the width, at least one digit is required. `none` is an
input or matching failure. -/
def scanUInt (width : Nat) (s : List Nat) : Option (Int × List Nat) :=
  match skipSpace s with
  | [] => none
  | c :: cs =>
    if c = 45 ∨ c = 43 then
      match cs with
      | [] => none
      | d :: _ =>
        if 2 ≤ width ∧ isdigit d then
          let r := scanDigits (width - 1) 0 cs
          some (if c = 45 then -(r.1 : Int) else (r.1 : Int), r.2)
        else none
    else if 1 ≤ width ∧ isdigit c then
      let r := scanDigits width 0 (c :: cs)
      some ((r.1 : Int), r.2)
    else none

/-- The values assigned by `sscanf` for a format made of `%<w>u` conversions
with the widths `ws`: conversions run in order and stop at the first failure. -/
def sscanfUInts : List Nat → List Nat → List Int
  | [], _ => []
  | w :: ws, s =>
    match scanUInt w s with
    | none => []
    | some (v, rest) => v :: sscanfUInts ws rest

/-- Value of the longest prefix of decimal digits, accumulated onto `acc`. -/
def digitsValue : Nat → List Nat → Nat
  | acc, [] => acc
  | acc, c :: cs => if isdigit c then digitsValue (acc * 10 + (c - 48)) cs else acc

/-- C `atoi` with a 16 bit `int` result. -/
def atoi (s : List Nat) : Int :=
  match skipSpace s with
  | [] => 0
  | c :: cs =>
    if c = 45 then toInt16 (-(digitsValue 0 cs : Int))
    else if c = 43 then toInt16 (digitsValue 0 cs)
    else toInt16 (digitsValue 0 (c :: cs))

/-! ## Communications.c: the command protocol -/

section Protocol

variable {F : Type}

/-- `executeCommand` (Communications.c lines 22-58). `command` is the memory at
the pointer; the seven locals start at 0 and keep that value when `sscanf` does
not assign them. No result when `command` holds no string or when the first
`strtok` returns NULL (which is then passed to `sscanf`). -/
def executeCommand (L : Libm F) (command : List Nat) (sp : SolarPositionParameters F) :
    Option (SolarPositionParameters F) :=
  match cString command with
  | none => none
  | some str =>
    match strtok 124 str with
    | (none, _) => none
    | (some token, rest1) =>
      let vals := sscanfUInts [4, 2, 2, 2, 2, 2, 1] token
      let year := toInt16 (vals.getD 0 0)
      let month := toInt16 (vals.getD 1 0)
      let day := toInt16 (vals.getD 2 0)
      let hour := toInt16 (vals.getD 3 0)
      let minute := toInt16 (vals.getD 4 0)
      let second := toInt16 (vals.getD 5 0)
      let hundreds := toInt16 (vals.getD 6 0)
      let sp := { sp with
        year := toUInt16 year, month := toUInt8 month, day := toUInt8 day,
        hour := toUInt8 hour, minute := toUInt8 minute, second := toUInt8 second,
        hundreds := toUInt8 hundreds }
      let t2 := strtok 124 rest1
      let sp := match t2.1 with
        | some token => { sp with timezone := toInt8 (atoi token) }
        | none => sp
      let t3 := strtok 124 t2.2
      let sp := match t3.1 with
        | some token => { sp with latitude := L.atof token }
        | none => sp
      let t4 := strtok 124 t3.2
      let sp := match t4.1 with
        | some token => { sp with longitude := L.atof token }
        | none => sp
      some sp

/-- The locals of `ClockAndDataSet`. -/
structure RxLocals where
  /-- `uint8_t index` -/
  index : Nat
  /-- `char command[40]` -/
  command : List Nat
  /-- `uint8_t start` -/
  start : Nat
  deriving DecidableEq

/-- What one pass through the loop body of `ClockAndDataSet` leads to. -/
inductive RxIter where
  /-- the loop goes on with these locals -/
  | next (st : RxLocals)
  /-- `executeCommand(command)` is called on this buffer and the loop is left -/
  | execute (command : List Nat)
  /-- a store outside `command[40]` -/
  | fault
  deriving DecidableEq

/-- The loop body of `ClockAndDataSet` (Communications.c lines 73-86) on the
byte `c` returned by `USART0_readChar`. -/
def rxBody (st : RxLocals) (c : Nat) : RxIter :=
  if st.start = 1 then
    if c = 62 then RxIter.execute st.command
    else if st.index < st.command.length then
      let st1 : RxLocals :=
        { st with command := st.command.set st.index c, index := (st.index + 1) % 256 }
      RxIter.next (if c = 60 then { st1 with start := 1 } else st1)
    else RxIter.fault
  else RxIter.next (if c = 60 then { st with start := 1 } else st)

/-- How a call of `ClockAndDataSet` ends on a finite stream of received bytes. -/
inductive RxOutcome (F : Type) where
  /-- the stream ran out inside `USART0_readChar`: the call waits, `solar_params`
  as shown, `executeCommand` not called so far -/
  | waiting (sp : SolarPositionParameters F) (st : RxLocals)
  /-- `executeCommand(command)` was called once, with the result shown, and the
  function returned; `unread` is the part of the stream not consumed -/
  | returned (result : Option (SolarPositionParameters F)) (command : List Nat)
      (unread : List Nat)
  /-- undefined behaviour: a store outside the buffer -/
  | fault

/-- The loop of `ClockAndDataSet` over the stream of received bytes. -/
def rxLoop (L : Libm F) (sp : SolarPositionParameters F) : RxLocals → List Nat → RxOutcome F
  | st, [] => RxOutcome.waiting sp st
  | st, c :: cs =>
    match rxBody st c with
    | RxIter.next st1 => rxLoop L sp st1 cs
    | RxIter.execute command => RxOutcome.returned (executeCommand L command sp) command cs
    | RxIter.fault => RxOutcome.fault

/-- `ClockAndDataSet` (Communications.c lines 68-88) on the stream of bytes that
`USART0_readChar` delivers. -/
def ClockAndDataSet (L : Libm F) (sp : SolarPositionParameters F) (input : List Nat) :
    RxOutcome F :=
  rxLoop L sp { index := 0, command := List.replicate 40 0, start := 0 } input

end Protocol

/-- The bytes of a string literal. -/
def bytes (s : String) : List Nat := s.toList.map Char.toNat

/-! ## Rational instance

Exact rational arithmetic satisfies the arithmetic interface; together with a
small-angle instance of the libm parameter it lets the integer parts of the
firmware run on concrete inputs. -/

/-- Exact arithmetic on `ℚ`: `fmod x y = x - y * trunc (x / y)`. -/
instance instDoubleArithRat : DoubleArith ℚ where
  ofInt i := (i : ℚ)
  floor x := ((⌊x⌋ : ℤ) : ℚ)
  fmod x y := x - y * (((if 0 ≤ x / y then ⌊x / y⌋ else ⌈x / y⌉) : ℤ) : ℚ)
  lt x y := decide (x < y)

/-- Small-angle rational instance of the libm parameter (`sin x = x`,
`cos x = 1`, ...); numbers print as nothing and parse as `0`. -/
def Libm.smallAngle : Libm ℚ where
  sin x := x
  cos _ := 1
  tan x := x
  asin x := x
  atan2 y x := if x = 0 then 0 else y / x
  atof _ := 0
  fmt34f _ := []

/-- The compiled-in initial value of `solar_params` (CosmosVar.h). -/
def solar_params_init {F : Type} [DoubleArith F] : SolarPositionParameters F where
  latitude := -(70.0206 : F)
  longitude := 162.6651
  timezone := -11
  year := 2024
  month := 12
  day := 21
  hour := 15
  minute := 8
  second := 30
  hundreds := 0
  elevation := 37.3
  azimuth := 171.4

/-! ## Specification-side notions -/

/-- Days in a month of the Gregorian calendar, February having 29 days exactly
when `isLeapYear year` holds; `0` for a month outside 1..12. -/
def daysInMonthOf (year month : Nat) : Nat :=
  match month with
  | 1 => 31
  | 2 => if isLeapYear year = 1 then 29 else 28
  | 3 => 31
  | 4 => 30
  | 5 => 31
  | 6 => 30
  | 7 => 31
  | 8 => 31
  | 9 => 30
  | 10 => 31
  | 11 => 30
  | 12 => 31
  | _ => 0

/-- The clock invariant of the spec: a valid date and time of day, and a tick
fraction below 20. -/
def ClockInvariant {F : Type} (sp : SolarPositionParameters F) : Prop :=
  1 ≤ sp.month ∧ sp.month ≤ 12 ∧ 1 ≤ sp.day ∧ sp.day ≤ daysInMonthOf sp.year sp.month
    ∧ sp.hour < 24 ∧ sp.minute < 60 ∧ sp.second < 60 ∧ sp.hundreds < 20

instance instDecidableClockInvariant {F : Type} (sp : SolarPositionParameters F) :
    Decidable (ClockInvariant sp) := by
  unfold ClockInvariant
  infer_instance

/-- Value of a string of decimal digits, most significant first, onto `acc`. -/
def numeralAcc (acc : Nat) (ds : List Nat) : Nat := ds.foldl (fun a d => a * 10 + (d - 48)) acc

/-- A token of a C string split at `|`: not empty, without `|` and without NUL. -/
def IsToken (t : List Nat) : Prop := t ≠ [] ∧ 124 ∉ t ∧ 0 ∉ t

instance instDecidableIsToken (t : List Nat) : Decidable (IsToken t) := by
  unfold IsToken
  infer_instance

/-- The text of a decimal integer: an optional minus sign and the digits. -/
def intText (neg : Bool) (ds : List Nat) : List Nat := (if neg then [45] else []) ++ ds

/-- The integer written by `intText neg ds`. -/
def intTextValue (neg : Bool) (ds : List Nat) : Int :=
  if neg then -(numeralAcc 0 ds : Int) else (numeralAcc 0 ds : Int)

/-- The locals of `ClockAndDataSet` while it accumulates, after the bytes `acc`
have been stored: they fill the front of the zero-initialised buffer. -/
def accState (acc : List Nat) : RxLocals :=
  { index := acc.length, command := acc ++ List.replicate (40 - acc.length) 0, start := 1 }

/-! ### The Gregorian calendar, for the daylight-saving rule -/

/-- Days in a year of the Gregorian calendar. -/
def daysInYear (y : Nat) : Nat := 365 + isLeapYear y

/-- Days in the years `0 .. y - 1` of the (proleptic) Gregorian calendar. -/
def daysBeforeYear : Nat → Nat
  | 0 => 0
  | y + 1 => daysBeforeYear y + daysInYear y

/-- Days of year `y` in the months before month `m`. -/
def daysBeforeMonth (y : Nat) : Nat → Nat
  | 0 => 0
  | m + 1 => daysBeforeMonth y m + daysInMonthOf y m

/-- Running number of the day `y`-`m`-`d`, counted from the start of year 0. -/
def dayNumber (y m d : Nat) : Nat := daysBeforeYear y + daysBeforeMonth y m + d

/-- Day of the week of `y`-`m`-`d`: 0 is Sunday, 1 Monday, ..., 6 Saturday. The
offset makes 1 January 2000 a Saturday. -/
def weekday (y m d : Nat) : Nat := (dayNumber y m d + 5) % 7

/-- `d` is the day of the last Sunday of month `m` of year `y`: a Sunday of that
month with no Sunday of the month after it. -/
def IsLastSunday (y m d : Nat) : Prop :=
  1 ≤ d ∧ d ≤ daysInMonthOf y m ∧ weekday y m d = 0 ∧ daysInMonthOf y m < d + 7

/-- The text between the opening `<` of a frame and its first `|`. -/
def dateTimeField (frame : List Nat) : List Nat := (frame.drop 1).takeWhile (· ≠ 124)

/-- The next calendar day after `y`-`m`-`d` in the Gregorian calendar. -/
def nextDay (y m d : Nat) : Nat × Nat × Nat :=
  if d < daysInMonthOf y m then (y, m, d + 1)
  else if m < 12 then (y, m + 1, 1)
  else (y + 1, 1, 1)

/-! ### The azimuth normalisation and binary floating point -/

/-- The final normalisation of the azimuth in `calculate_solar_position`
(Cosmos.c lines 209-212): `fmod(azimuth_temp, 360.0)`, then `+ 360.0` when the
remainder is negative. -/
def normalizeAzimuth {F : Type} [DoubleArith F] (azimuth_temp : F) : F :=
  let azimuth_temp2 := DoubleArith.fmod azimuth_temp 360.0
  if DoubleArith.lt azimuth_temp2 (DoubleArith.ofInt 0) then azimuth_temp2 + 360.0
  else azimuth_temp2

/-- Rounding of a rational to the nearest integer, ties to the even one. -/
def roundEven (q : ℚ) : Int :=
  if q - ⌊q⌋ < 1 / 2 then ⌊q⌋
  else if 1 / 2 < q - ⌊q⌋ then ⌊q⌋ + 1
  else if ⌊q⌋ % 2 = 0 then ⌊q⌋ else ⌊q⌋ + 1

/-- Rounding of a rational to the nearest binary floating-point number with a
significand of `p` bits (IEEE 754 round-to-nearest-even; the exponent range is
not bounded, so no overflow, underflow or subnormal numbers). -/
def roundBinary (p : Nat) (x : ℚ) : ℚ :=
  if x = 0 then 0
  else (roundEven (x / (2 : ℚ) ^ (Int.log 2 |x| - ((p : Int) - 1))) : ℚ)
    * (2 : ℚ) ^ (Int.log 2 |x| - ((p : Int) - 1))

/-- A finite binary floating-point number with a significand of `p` bits
(`p = 53`: IEEE 754 binary64; `p = 24`: binary32, the `double` of avr-gcc by
default), given by its value. Infinities and NaN are not represented. -/
structure BinaryFloat (p : Nat) where
  /-- the value -/
  val : ℚ

/-- Floating-point arithmetic on finite numbers: every operation is the exact
one followed by rounding; `floor` and `fmod` are exact, as in IEEE 754. A
division by zero, which has no finite result, is given the value of `x / 0` in
`ℚ`. -/
instance instDoubleArithBinaryFloat (p : Nat) : DoubleArith (BinaryFloat p) where
  add x y := ⟨roundBinary p (x.val + y.val)⟩
  sub x y := ⟨roundBinary p (x.val - y.val)⟩
  mul x y := ⟨roundBinary p (x.val * y.val)⟩
  div x y := ⟨roundBinary p (x.val / y.val)⟩
  neg x := ⟨-x.val⟩
  ofScientific m s e := ⟨roundBinary p (OfScientific.ofScientific m s e)⟩
  ofInt i := ⟨roundBinary p (i : ℚ)⟩
  floor x := ⟨((⌊x.val⌋ : ℤ) : ℚ)⟩
  fmod x y := ⟨DoubleArith.fmod x.val y.val⟩
  lt x y := decide (x.val < y.val)

/-! ## Lemmas on the calendar helpers and the engine's frame -/

theorem isLeapYear_zero_or_one (y : Nat) : isLeapYear y = 0 ∨ isLeapYear y = 1 := by
  unfold isLeapYear; split <;> simp

theorem daysInMonthAt_of_month (m : Nat) (h1 : 1 ≤ m) (h2 : m ≤ 12) :
    daysInMonthAt ((m : Int) - 1) = some (daysInMonthOf 1 m) := by
  interval_cases m <;> rfl

theorem daysInMonthOf_facts (y m : Nat) (h1 : 1 ≤ m) (h2 : m ≤ 12) :
    28 ≤ daysInMonthOf 1 m ∧ daysInMonthOf 1 m ≤ 31
      ∧ (m ≠ 2 → daysInMonthOf y m = daysInMonthOf 1 m)
      ∧ (m = 2 → daysInMonthOf 1 m = 28 ∧ (isLeapYear y ≠ 0 → daysInMonthOf y m = 29)
          ∧ (isLeapYear y = 0 → daysInMonthOf y m = 28)) := by
  rcases isLeapYear_zero_or_one y with h | h <;> interval_cases m <;>
    simp [daysInMonthOf, h, isLeapYear]

section EngineFrame

variable {F : Type} [DoubleArith F] (L : Libm F) (sp : SolarPositionParameters F)

@[simp] theorem calculate_solar_position_latitude :
    (calculate_solar_position L sp).latitude = sp.latitude := rfl

@[simp] theorem calculate_solar_position_longitude :
    (calculate_solar_position L sp).longitude = sp.longitude := rfl

@[simp] theorem calculate_solar_position_timezone :
    (calculate_solar_position L sp).timezone = sp.timezone := rfl

@[simp] theorem calculate_solar_position_year :
    (calculate_solar_position L sp).year = sp.year := rfl

@[simp] theorem calculate_solar_position_month :
    (calculate_solar_position L sp).month = sp.month := rfl

@[simp] theorem calculate_solar_position_day :
    (calculate_solar_position L sp).day = sp.day := rfl

@[simp] theorem calculate_solar_position_hour :
    (calculate_solar_position L sp).hour = sp.hour := rfl

@[simp] theorem calculate_solar_position_minute :
    (calculate_solar_position L sp).minute = sp.minute := rfl

@[simp] theorem calculate_solar_position_second :
    (calculate_solar_position L sp).second = sp.second := rfl

@[simp] theorem calculate_solar_position_hundreds :
    (calculate_solar_position L sp).hundreds = sp.hundreds := rfl

theorem calculate_solar_position_invariant (h : ClockInvariant sp) :
    ClockInvariant (calculate_solar_position L sp) := h

end EngineFrame

/-- The time increment keeps the clock invariant and always has a result under
it. -/
theorem timeIncrement_invariant {F : Type} (sp : SolarPositionParameters F)
    (h : ClockInvariant sp) :
    ∃ sp', timeIncrement sp = some sp' ∧ ClockInvariant sp' := by
  obtain ⟨hm1, hm2, hd1, hd2, hh, hmi, hs, hu⟩ := h
  have f1 := daysInMonthOf_facts sp.year sp.month hm1 hm2
  have f2 : (sp.month + 1) % 256 ≤ 12 → 1 ≤ daysInMonthOf sp.year ((sp.month + 1) % 256) := by
    intro h
    have := daysInMonthOf_facts sp.year ((sp.month + 1) % 256) (by omega) h
    omega
  have f3 : ∀ y, daysInMonthOf y 1 = 31 := fun _ => rfl
  unfold timeIncrement
  simp only [ClockInvariant]
  rw [daysInMonthAt_of_month sp.month hm1 hm2]
  simp only []
  split_ifs <;> refine ⟨_, rfl, ?_⟩ <;> simp only [f3] <;> omega

/-- With the gate open the handler is the engine, the frame and the time
increment, whenever the increment has a result. -/
theorem ISR_open {F : Type} [DoubleArith F] (L : Libm F) (portb_in : Nat)
    (sp sp2 : SolarPositionParameters F) (hgate : portb_in &&& PIN1_bm ≠ 0)
    (h : timeIncrement (calculate_solar_position L sp) = some sp2) :
    ISR_RTC_CNT_vect L portb_in sp = some (sp2, [Event.intflagsClear, Event.ledToggle,
      Event.solarPosition, Event.printf (telemetryFrame L (calculate_solar_position L sp))]) := by
  unfold ISR_RTC_CNT_vect
  rw [if_pos hgate]
  simp only [h]

/-! ## Lemmas on the string services -/

theorem cString_append (s junk : List Nat) (h : 0 ∉ s) : cString (s ++ 0 :: junk) = some s := by
  induction s with
  | nil => simp [cString]
  | cons c cs ih =>
    have hc : c ≠ 0 := fun e => h (by simp [e])
    have hcs : 0 ∉ cs := fun e => h (by simp [e])
    simp [cString, hc, ih hcs]

theorem strtok_nil (delim : Nat) : strtok delim [] = (none, []) := rfl

theorem strtok_token (delim : Nat) (t : List Nat) (hne : t ≠ []) (hd : delim ∉ t) :
    strtok delim t = (some t, []) := by
  cases t with
  | nil => exact absurd rfl hne
  | cons c cs =>
    have hc : c ≠ delim := fun e => hd (by simp [e])
    have hall : ∀ x ∈ c :: cs, x ≠ delim := fun x hx e => hd (e ▸ hx)
    have htake : (c :: cs).takeWhile (fun x => decide (x ≠ delim)) = c :: cs := by
      rw [List.takeWhile_eq_self_iff]; intro x hx; simpa using hall x hx
    have hdrop : (c :: cs).dropWhile (fun x => decide (x ≠ delim)) = [] := by
      rw [List.dropWhile_eq_nil_iff]; intro x hx; simpa using hall x hx
    unfold strtok
    rw [List.dropWhile_cons_of_neg (by simpa using hc)]
    simp only [htake, hdrop, List.drop_nil]

theorem strtok_token_delim (delim : Nat) (t r : List Nat) (hne : t ≠ []) (hd : delim ∉ t) :
    strtok delim (t ++ delim :: r) = (some t, r) := by
  cases t with
  | nil => exact absurd rfl hne
  | cons c cs =>
    have hc : c ≠ delim := fun e => hd (by simp [e])
    have hall : ∀ x ∈ c :: cs, x ≠ delim := fun x hx e => hd (e ▸ hx)
    have htake : (c :: cs ++ delim :: r).takeWhile (fun x => decide (x ≠ delim)) = c :: cs := by
      rw [List.takeWhile_append_of_pos (by intro x hx; simpa using hall x hx)]
      simp
    have hdrop : (c :: cs ++ delim :: r).dropWhile (fun x => decide (x ≠ delim)) = delim :: r := by
      rw [List.dropWhile_append_of_pos (by intro x hx; simpa using hall x hx)]
      simp
    unfold strtok
    rw [List.cons_append, List.dropWhile_cons_of_neg (by simpa using hc)]
    rw [List.cons_append] at htake hdrop 
    simp only [htake, hdrop, List.drop_succ_cons, List.drop_zero]

theorem strtok_leading (delim : Nat) (k : Nat) (s : List Nat) :
    strtok delim (List.replicate k delim ++ s) = strtok delim s := by
  unfold strtok
  rw [List.dropWhile_append_of_pos (by intro x hx; simp [List.eq_of_mem_replicate hx])]

theorem isdigit_iff (c : Nat) : isdigit c = true ↔ 48 ≤ c ∧ c ≤ 57 := by
  simp [isdigit]

theorem isspace_of_isdigit (c : Nat) (h : isdigit c = true) : isspace c = false := by
  rw [isdigit_iff] at h
  simp only [isspace, decide_eq_false_iff_not]
  omega

theorem skipSpace_digit (c : Nat) (cs : List Nat) (h : isdigit c = true) :
    skipSpace (c :: cs) = c :: cs := by
  simp [skipSpace, isspace_of_isdigit c h]

theorem scanDigits_digits (ds rest : List Nat) (acc : Nat) (h : ∀ d ∈ ds, isdigit d = true) :
    scanDigits ds.length acc (ds ++ rest) = (numeralAcc acc ds, rest) := by
  induction ds generalizing acc with
  | nil => simp [scanDigits, numeralAcc]
  | cons d ds ih =>
    have hd : isdigit d = true := h d (by simp)
    simp only [List.length_cons, List.cons_append, scanDigits, hd, if_true]
    have := ih (acc * 10 + (d - 48)) (fun x hx => h x (by simp [hx]))
    simpa [numeralAcc] using this

theorem scanUInt_digits (ds rest : List Nat) (hne : ds ≠ []) (h : ∀ d ∈ ds, isdigit d = true) :
    scanUInt ds.length (ds ++ rest) = some ((numeralAcc 0 ds : Int), rest) := by
  cases ds with
  | nil => exact absurd rfl hne
  | cons d ds =>
    have hd : isdigit d = true := h d (by simp)
    have hd' := (isdigit_iff d).mp hd
    have hsign : ¬ (d = 45 ∨ d = 43) := by omega
    have := scanDigits_digits (d :: ds) rest 0 h
    simp only [List.cons_append, List.length_cons] at this ⊢
    unfold scanUInt
    rw [skipSpace_digit d _ hd]
    simp only [hsign, if_false, hd, this]
    simp

theorem sscanf_15_digits (d1 d2 d3 d4 d5 d6 d7 d8 d9 d10 d11 d12 d13 d14 d15 : Nat)
    (h : ∀ d ∈ [d1, d2, d3, d4, d5, d6, d7, d8, d9, d10, d11, d12, d13, d14, d15],
      isdigit d = true) :
    sscanfUInts [4, 2, 2, 2, 2, 2, 1]
        [d1, d2, d3, d4, d5, d6, d7, d8, d9, d10, d11, d12, d13, d14, d15]
      = [(numeralAcc 0 [d1, d2, d3, d4] : Int), (numeralAcc 0 [d5, d6] : Int),
          (numeralAcc 0 [d7, d8] : Int), (numeralAcc 0 [d9, d10] : Int),
          (numeralAcc 0 [d11, d12] : Int), (numeralAcc 0 [d13, d14] : Int),
          (numeralAcc 0 [d15] : Int)] := by
  have e1 := scanUInt_digits [d1, d2, d3, d4] [d5, d6, d7, d8, d9, d10, d11, d12, d13, d14, d15]
    (by simp) (fun d hd => h d (by simp at hd ⊢; tauto))
  have e2 := scanUInt_digits [d5, d6] [d7, d8, d9, d10, d11, d12, d13, d14, d15]
    (by simp) (fun d hd => h d (by simp at hd ⊢; tauto))
  have e3 := scanUInt_digits [d7, d8] [d9, d10, d11, d12, d13, d14, d15]
    (by simp) (fun d hd => h d (by simp at hd ⊢; tauto))
  have e4 := scanUInt_digits [d9, d10] [d11, d12, d13, d14, d15]
    (by simp) (fun d hd => h d (by simp at hd ⊢; tauto))
  have e5 := scanUInt_digits [d11, d12] [d13, d14, d15]
    (by simp) (fun d hd => h d (by simp at hd ⊢; tauto))
  have e6 := scanUInt_digits [d13, d14] [d15]
    (by simp) (fun d hd => h d (by simp at hd ⊢; tauto))
  have e7 := scanUInt_digits [d15] []
    (by simp) (fun d hd => h d (by simp at hd ⊢; tauto))
  simp only [List.length_cons, List.length_nil, List.cons_append, List.nil_append,
    Nat.reduceAdd, zero_add] at e1 e2 e3 e4 e5 e6 e7
  simp only [sscanfUInts, e1, e2, e3, e4, e5, e6, e7]

theorem digitsValue_digits (ds : List Nat) (acc : Nat) (h : ∀ d ∈ ds, isdigit d = true) :
    digitsValue acc ds = numeralAcc acc ds := by
  induction ds generalizing acc with
  | nil => rfl
  | cons d ds ih =>
    have hd : isdigit d = true := h d (by simp)
    simp only [digitsValue, hd, if_true]
    rw [ih _ (fun x hx => h x (by simp [hx]))]
    rfl

theorem atoi_intText (neg : Bool) (ds : List Nat) (hne : ds ≠ [])
    (h : ∀ d ∈ ds, isdigit d = true) :
    atoi (intText neg ds) = toInt16 (intTextValue neg ds) := by
  cases ds with
  | nil => exact absurd rfl hne
  | cons d ds =>
    have hd : isdigit d = true := h d (by simp)
    have hd' := (isdigit_iff d).mp hd
    cases neg with
    | true =>
      have hs : skipSpace (45 :: d :: ds) = 45 :: d :: ds := by
        simp [skipSpace, isspace]
      simp only [intText, if_true, List.singleton_append, atoi, hs, intTextValue]
      rw [digitsValue_digits _ _ h]
    | false =>
      have h45 : d ≠ 45 := by omega
      have h43 : d ≠ 43 := by omega
      simp only [intText, List.nil_append, atoi, skipSpace_digit d ds hd, h45, h43,
        if_false, intTextValue, Bool.false_eq_true]
      rw [digitsValue_digits _ _ h]

theorem toInt8_toInt16 (v : Int) : toInt8 (toInt16 v) = toInt8 v := by
  simp only [toInt8, toInt16, Int.bmod, Nat.cast_ofNat]
  split_ifs <;> omega

theorem toInt8_of_range (v : Int) (h1 : -128 ≤ v) (h2 : v ≤ 127) : toInt8 v = v := by
  simp only [toInt8, Int.bmod, Nat.cast_ofNat]
  split_ifs <;> omega

theorem toUInt16_toInt16 (v : Nat) : toUInt16 (toInt16 v) = v % 65536 := by
  simp only [toUInt16, toInt16, Int.bmod, Nat.cast_ofNat]
  split_ifs <;> omega

theorem toUInt8_toInt16 (v : Nat) : toUInt8 (toInt16 v) = v % 256 := by
  simp only [toUInt8, toInt16, Int.bmod, Nat.cast_ofNat]
  split_ifs <;> omega

section
variable {F : Type} (L : Libm F) (sp : SolarPositionParameters F)

/-- `executeCommand` on a string made of one token. -/
theorem executeCommand_one_token (t junk : List Nat) (h : IsToken t) :
    executeCommand L (t ++ 0 :: junk) sp =
      some { sp with
        year := toUInt16 (toInt16 ((sscanfUInts [4, 2, 2, 2, 2, 2, 1] t).getD 0 0)),
        month := toUInt8 (toInt16 ((sscanfUInts [4, 2, 2, 2, 2, 2, 1] t).getD 1 0)),
        day := toUInt8 (toInt16 ((sscanfUInts [4, 2, 2, 2, 2, 2, 1] t).getD 2 0)),
        hour := toUInt8 (toInt16 ((sscanfUInts [4, 2, 2, 2, 2, 2, 1] t).getD 3 0)),
        minute := toUInt8 (toInt16 ((sscanfUInts [4, 2, 2, 2, 2, 2, 1] t).getD 4 0)),
        second := toUInt8 (toInt16 ((sscanfUInts [4, 2, 2, 2, 2, 2, 1] t).getD 5 0)),
        hundreds := toUInt8 (toInt16 ((sscanfUInts [4, 2, 2, 2, 2, 2, 1] t).getD 6 0)) } := by
  obtain ⟨hne, hbar, hnul⟩ := h
  unfold executeCommand
  rw [cString_append t junk hnul]
  simp only [strtok_token 124 t hne hbar, strtok_nil]

/-- `executeCommand` on a string made of two tokens separated by one `|`. -/
theorem executeCommand_two_tokens (t1 t2 junk : List Nat) (h1 : IsToken t1) (h2 : IsToken t2) :
    executeCommand L (t1 ++ 124 :: t2 ++ 0 :: junk) sp =
      some { sp with
        year := toUInt16 (toInt16 ((sscanfUInts [4, 2, 2, 2, 2, 2, 1] t1).getD 0 0)),
        month := toUInt8 (toInt16 ((sscanfUInts [4, 2, 2, 2, 2, 2, 1] t1).getD 1 0)),
        day := toUInt8 (toInt16 ((sscanfUInts [4, 2, 2, 2, 2, 2, 1] t1).getD 2 0)),
        hour := toUInt8 (toInt16 ((sscanfUInts [4, 2, 2, 2, 2, 2, 1] t1).getD 3 0)),
        minute := toUInt8 (toInt16 ((sscanfUInts [4, 2, 2, 2, 2, 2, 1] t1).getD 4 0)),
        second := toUInt8 (toInt16 ((sscanfUInts [4, 2, 2, 2, 2, 2, 1] t1).getD 5 0)),
        hundreds := toUInt8 (toInt16 ((sscanfUInts [4, 2, 2, 2, 2, 2, 1] t1).getD 6 0)),
        timezone := toInt8 (atoi t2) } := by
  obtain ⟨hne1, hbar1, hnul1⟩ := h1
  obtain ⟨hne2, hbar2, hnul2⟩ := h2
  have hnul : 0 ∉ t1 ++ 124 :: t2 := by
    simp only [List.mem_append, List.mem_cons, not_or]
    exact ⟨hnul1, by decide, hnul2⟩
  have e : t1 ++ 124 :: t2 ++ 0 :: junk = (t1 ++ 124 :: t2) ++ 0 :: junk := by simp
  unfold executeCommand
  rw [e, cString_append _ junk hnul]
  simp only [strtok_token_delim 124 t1 t2 hne1 hbar1, strtok_token 124 t2 hne2 hbar2, strtok_nil]
end

/-- The date/time fields written by `executeCommand` come from the first token
alone. -/
theorem executeCommand_datetime {F : Type} (L : Libm F) (sp : SolarPositionParameters F)
    (mem str tok r1 : List Nat) (hs : cString mem = some str)
    (ht : strtok 124 str = (some tok, r1)) :
    ∃ sp', executeCommand L mem sp = some sp'
      ∧ sp'.year = toUInt16 (toInt16 ((sscanfUInts [4, 2, 2, 2, 2, 2, 1] tok).getD 0 0))
      ∧ sp'.month = toUInt8 (toInt16 ((sscanfUInts [4, 2, 2, 2, 2, 2, 1] tok).getD 1 0))
      ∧ sp'.day = toUInt8 (toInt16 ((sscanfUInts [4, 2, 2, 2, 2, 2, 1] tok).getD 2 0))
      ∧ sp'.hour = toUInt8 (toInt16 ((sscanfUInts [4, 2, 2, 2, 2, 2, 1] tok).getD 3 0))
      ∧ sp'.minute = toUInt8 (toInt16 ((sscanfUInts [4, 2, 2, 2, 2, 2, 1] tok).getD 4 0))
      ∧ sp'.second = toUInt8 (toInt16 ((sscanfUInts [4, 2, 2, 2, 2, 2, 1] tok).getD 5 0))
      ∧ sp'.hundreds = toUInt8 (toInt16 ((sscanfUInts [4, 2, 2, 2, 2, 2, 1] tok).getD 6 0)) := by
  unfold executeCommand
  simp only [hs, ht]
  refine ⟨_, rfl, ?_⟩
  cases (strtok 124 r1).1 <;> cases (strtok 124 (strtok 124 r1).2).1 <;>
    cases (strtok 124 (strtok 124 (strtok 124 r1).2).2).1 <;>
    exact ⟨rfl, rfl, rfl, rfl, rfl, rfl, rfl⟩

/-! ## Lemmas on the receive loop -/

theorem prefix_append_cases {α : Type} (q p t : List α) (h : q <+: p ++ t) :
    q <+: p ∨ ∃ t', q = p ++ t' ∧ t' <+: t := by
  induction p generalizing q with
  | nil => exact Or.inr ⟨q, rfl, h⟩
  | cons a p ih =>
    rw [List.cons_append, List.prefix_cons_iff] at h
    rcases h with rfl | ⟨q', rfl, hq'⟩
    · exact Or.inl List.nil_prefix
    · rcases ih q' hq' with h1 | ⟨t', rfl, ht'⟩
      · exact Or.inl ((List.prefix_cons_inj a).mpr h1)
      · exact Or.inr ⟨t', rfl, ht'⟩

section
variable {F : Type} (L : Libm F) (sp : SolarPositionParameters F)

theorem rxLoop_idle (st : RxLocals) (hst : st.start ≠ 1) (p s : List Nat) (hp : 60 ∉ p) :
    rxLoop L sp st (p ++ s) = rxLoop L sp st s := by
  induction p with
  | nil => rfl
  | cons c p ih =>
    have hc : c ≠ 60 := fun e => hp (by simp [e])
    have hb : rxBody st c = RxIter.next st := by simp [rxBody, hst, hc]
    rw [List.cons_append, rxLoop, hb]
    exact ih (fun h => hp (by simp [h]))

theorem rxLoop_start (s : List Nat) :
    rxLoop L sp { index := 0, command := List.replicate 40 0, start := 0 } (60 :: s)
      = rxLoop L sp (accState []) s := by
  rw [rxLoop]
  rfl

theorem rxBody_accumulate (acc : List Nat) (c : Nat) (hc : c ≠ 62) (hlen : acc.length < 40) :
    rxBody (accState acc) c = RxIter.next (accState (acc ++ [c])) := by
  obtain ⟨k, hk⟩ : ∃ k, 40 - acc.length = k + 1 := ⟨39 - acc.length, by omega⟩
  have hk' : 40 - (acc.length + 1) = k := by omega
  have hset : (acc ++ List.replicate (40 - acc.length) 0).set acc.length c
      = acc ++ [c] ++ List.replicate (40 - (acc.length + 1)) 0 := by
    rw [List.set_append_right _ _ (Nat.le_refl _), hk, hk']
    simp [List.replicate_succ]
  have hmod : (acc.length + 1) % 256 = acc.length + 1 := by omega
  have hidx : acc.length < (acc ++ List.replicate (40 - acc.length) 0).length := by
    simp only [List.length_append, List.length_replicate]; omega
  unfold rxBody
  dsimp only [accState]
  rw [if_pos rfl, if_neg hc, if_pos hidx, hset, hmod]
  split <;> simp

theorem rxLoop_accumulate (b : List Nat) :
    ∀ (acc s : List Nat), 62 ∉ b → acc.length + b.length ≤ 40 →
      rxLoop L sp (accState acc) (b ++ s) = rxLoop L sp (accState (acc ++ b)) s := by
  induction b with
  | nil => intro acc s _ _; simp
  | cons c b ih =>
    intro acc s h62 hlen
    have hc : c ≠ 62 := fun e => h62 (by simp [e])
    have hl : acc.length < 40 := by simp only [List.length_cons] at hlen; omega
    rw [List.cons_append, rxLoop, rxBody_accumulate acc c hc hl]
    have := ih (acc ++ [c]) s (fun h => h62 (by simp [h]))
      (by simp only [List.length_append, List.length_cons, List.length_nil] at hlen ⊢; omega)
    simpa using this

theorem rxLoop_end (acc s : List Nat) :
    rxLoop L sp (accState acc) (62 :: s)
      = RxOutcome.returned (executeCommand L (accState acc).command sp) (accState acc).command s := by
  rw [rxLoop]
  rfl

/-- Before the closing `>` arrives the call is still waiting, with
`solar_params` untouched. -/
theorem ClockAndDataSet_waiting (p b q : List Nat) (hp : 60 ∉ p) (hb : 62 ∉ b)
    (hlen : b.length ≤ 40) (hq : q <+: p ++ 60 :: b) :
    ∃ st, ClockAndDataSet L sp q = RxOutcome.waiting sp st := by
  unfold ClockAndDataSet
  rcases prefix_append_cases q p _ hq with h1 | ⟨t, rfl, ht⟩
  · have hq60 : 60 ∉ q := fun h => hp (h1.subset h)
    have := rxLoop_idle L sp { index := 0, command := List.replicate 40 0, start := 0 }
      (by decide) q [] hq60
    rw [List.append_nil] at this
    exact ⟨_, this⟩
  · rw [rxLoop_idle L sp _ (by decide) p t hp]
    rcases List.prefix_cons_iff.mp ht with rfl | ⟨b', rfl, hb'⟩
    · exact ⟨_, rfl⟩
    · have h62 : 62 ∉ b' := fun h => hb (hb'.subset h)
      have hl : b'.length ≤ 40 := le_trans hb'.length_le hlen
      have := rxLoop_accumulate L sp b' [] [] h62 (by simpa using hl)
      rw [List.append_nil] at this
      rw [rxLoop_start, this]
      exact ⟨_, rfl⟩

/-- On the closing `>` the accumulated buffer is handed to `executeCommand` and
the call returns. -/
theorem ClockAndDataSet_frame (p b s : List Nat) (hp : 60 ∉ p) (hb : 62 ∉ b)
    (hlen : b.length ≤ 40) :
    ClockAndDataSet L sp (p ++ 60 :: b ++ 62 :: s)
      = RxOutcome.returned (executeCommand L (b ++ List.replicate (40 - b.length) 0) sp)
          (b ++ List.replicate (40 - b.length) 0) s := by
  unfold ClockAndDataSet
  rw [List.append_assoc, rxLoop_idle L sp _ (by decide) p _ hp, List.cons_append, rxLoop_start,
    rxLoop_accumulate L sp b [] _ hb (by simpa using hlen), rxLoop_end]
  simp [accState]

theorem cString_buffer (b : List Nat) (h0 : 0 ∉ b) (hlen : b.length ≤ 39) :
    cString (b ++ List.replicate (40 - b.length) 0) = some b := by
  obtain ⟨k, hk⟩ : ∃ k, 40 - b.length = k + 1 := ⟨39 - b.length, by omega⟩
  rw [hk, List.replicate_succ]
  exact cString_append b _ h0
end

/-! ## Lemmas on the Gregorian calendar -/

theorem daysBeforeYear_closed (y : Nat) :
    daysBeforeYear y + (y + 99) / 100 = 365 * y + (y + 3) / 4 + (y + 399) / 400 := by
  induction y with
  | zero => rfl
  | succ y ih =>
    simp only [daysBeforeYear, daysInYear, isLeapYear]
    split <;> omega

theorem daysBeforeMonth_march (y : Nat) : daysBeforeMonth y 3 = 59 + isLeapYear y := by
  rcases isLeapYear_zero_or_one y with h | h <;> simp [daysBeforeMonth, daysInMonthOf, h]

theorem daysBeforeMonth_october (y : Nat) : daysBeforeMonth y 10 = 273 + isLeapYear y := by
  rcases isLeapYear_zero_or_one y with h | h <;> simp [daysBeforeMonth, daysInMonthOf, h]

theorem toInt16_of_range (v : Int) (h1 : -32768 ≤ v) (h2 : v ≤ 32767) : toInt16 v = v := by
  simp only [toInt16, Int.bmod, Nat.cast_ofNat]
  split_ifs <;> omega

theorem march_last_sunday_nat (y : Nat) (hy : y ≤ 6553) :
    march_last_sunday (y : Int) = ((31 - (5 * y / 4 + 4) % 7 : Nat) : Int) := by
  unfold march_last_sunday
  rw [toInt16_of_range _ (by omega) (by omega),
    Int.tdiv_eq_ediv (by omega) (by omega), Int.tmod_eq_emod (by omega) (by omega)]
  have h5 : 5 * y / 4 = y + y / 4 := by omega
  have h5i : 5 * (y : Int) / 4 = y + (y : Int) / 4 := by omega
  rw [h5, h5i]
  omega

theorem october_last_sunday_nat (y : Nat) (hy : y ≤ 6553) :
    october_last_sunday (y : Int) = ((31 - (5 * y / 4 + 1) % 7 : Nat) : Int) := by
  unfold october_last_sunday
  rw [toInt16_of_range _ (by omega) (by omega),
    Int.tdiv_eq_ediv (by omega) (by omega), Int.tmod_eq_emod (by omega) (by omega)]
  have h5 : 5 * y / 4 = y + y / 4 := by omega
  have h5i : 5 * (y : Int) / 4 = y + (y : Int) / 4 := by omega
  rw [h5, h5i]
  omega

theorem isLastSunday_march (y : Nat) (hy1 : 1900 ≤ y) (hy2 : y ≤ 2099) :
    IsLastSunday y 3 (31 - (5 * y / 4 + 4) % 7) := by
  have hc := daysBeforeYear_closed y
  have hm := daysBeforeMonth_march y
  have hl : isLeapYear y = if (y % 4 = 0 ∧ y % 100 ≠ 0) ∨ y % 400 = 0 then 1 else 0 := rfl
  have h31 : daysInMonthOf y 3 = 31 := rfl
  have h5 : 5 * y / 4 = y + y / 4 := by omega
  unfold IsLastSunday weekday dayNumber
  rw [h31, hm, h5]
  have hq : (y + 3) / 4 = y / 4 + (if y % 4 = 0 then 0 else 1) := by split <;> omega
  rcases (by omega : y = 1900 ∨ (1901 ≤ y ∧ y ≤ 2000) ∨ 2001 ≤ y) with h | h | h
  · have e1 : (y + 99) / 100 = 19 := by omega
    have e2 : (y + 399) / 400 = 5 := by omega
    split at hl <;> split at hq <;> omega
  · have e1 : (y + 99) / 100 = 20 := by omega
    have e2 : (y + 399) / 400 = 5 := by omega
    split at hl <;> split at hq <;> omega
  · have e1 : (y + 99) / 100 = 21 := by omega
    have e2 : (y + 399) / 400 = 6 := by omega
    split at hl <;> split at hq <;> omega

theorem isLastSunday_october (y : Nat) (hy1 : 1900 ≤ y) (hy2 : y ≤ 2099) :
    IsLastSunday y 10 (31 - (5 * y / 4 + 1) % 7) := by
  have hc := daysBeforeYear_closed y
  have hm := daysBeforeMonth_october y
  have hl : isLeapYear y = if (y % 4 = 0 ∧ y % 100 ≠ 0) ∨ y % 400 = 0 then 1 else 0 := rfl
  have h31 : daysInMonthOf y 10 = 31 := rfl
  have h5 : 5 * y / 4 = y + y / 4 := by omega
  unfold IsLastSunday weekday dayNumber
  rw [h31, hm, h5]
  have hq : (y + 3) / 4 = y / 4 + (if y % 4 = 0 then 0 else 1) := by split <;> omega
  rcases (by omega : y = 1900 ∨ (1901 ≤ y ∧ y ≤ 2000) ∨ 2001 ≤ y) with h | h | h
  · have e1 : (y + 99) / 100 = 19 := by omega
    have e2 : (y + 399) / 400 = 5 := by omega
    split at hl <;> split at hq <;> omega
  · have e1 : (y + 99) / 100 = 20 := by omega
    have e2 : (y + 399) / 400 = 5 := by omega
    split at hl <;> split at hq <;> omega
  · have e1 : (y + 99) / 100 = 21 := by omega
    have e2 : (y + 399) / 400 = 6 := by omega
    split at hl <;> split at hq <;> omega

theorem isLastSunday_unique (y m d1 d2 : Nat) (h1 : IsLastSunday y m d1)
    (h2 : IsLastSunday y m d2) : d1 = d2 := by
  unfold IsLastSunday weekday dayNumber at h1 h2
  omega

/-- Known days of the week: 1 January 2000 was a Saturday, 1 January 1900 a
Monday, 1 December 2024 a Sunday. -/
theorem weekday_anchor :
    weekday 2000 1 1 = 6 ∧ weekday 1900 1 1 = 1 ∧ weekday 2024 12 1 = 0 := by
  have h1 := daysBeforeYear_closed 2000
  have h2 := daysBeforeYear_closed 1900
  have h3 := daysBeforeYear_closed 2024
  have m1 : ∀ y, daysBeforeMonth y 1 = 0 := fun _ => rfl
  have m12 : daysBeforeMonth 2024 12 = 335 := by decide
  unfold weekday dayNumber
  rw [m1, m1, m12]
  omega

/-- The engine reads no more of the record than the date/time, location and
timezone fields: overwriting the stored elevation and azimuth first does not
change its result. -/
theorem calculate_solar_position_overwrite {F : Type} [DoubleArith F] (L : Libm F)
    (sp : SolarPositionParameters F) (e a : F) :
    calculate_solar_position L { sp with elevation := e, azimuth := a }
      = calculate_solar_position L sp := rfl

/-! ## Lemmas on the telemetry frame -/

theorem decDigits_one (n : Nat) (h : n < 10) : decDigits n = [48 + n] := by
  simp [decDigits, digitsAux, h]

theorem decDigits_two (n : Nat) (h1 : 10 ≤ n) (h2 : n < 100) :
    decDigits n = [48 + n / 10, 48 + n % 10] := by
  obtain ⟨m, rfl⟩ : ∃ m, n = m + 1 := ⟨n - 1, by omega⟩
  have h3 : ¬ (m + 1 < 10) := by omega
  have h4 : (m + 1) / 10 < 10 := by omega
  simp [decDigits, digitsAux, h3, h4]

theorem decDigits_four (n : Nat) (h1 : 1000 ≤ n) (h2 : n < 10000) :
    decDigits n = [48 + n / 1000, 48 + n / 100 % 10, 48 + n / 10 % 10, 48 + n % 10] := by
  obtain ⟨m, rfl⟩ : ∃ m, n = m + 3 := ⟨n - 3, by omega⟩
  have h3 : ¬ (m + 3 < 10) := by omega
  have h4 : ¬ ((m + 3) / 10 < 10) := by omega
  have h5 : ¬ ((m + 3) / 10 / 10 < 10) := by omega
  have h6 : (m + 3) / 10 / 10 / 10 < 10 := by omega
  have e1 : (m + 3) / 10 / 10 / 10 = (m + 3) / 1000 := by omega
  have e2 : (m + 3) / 10 / 10 % 10 = (m + 3) / 100 % 10 := by omega
  have hd : digitsAux (m + 3 + 1) (m + 3) []
      = [48 + (m + 3) / 1000, 48 + (m + 3) / 100 % 10, 48 + (m + 3) / 10 % 10,
          48 + (m + 3) % 10] := by
    have h6' : (m + 3) / 1000 < 10 := by omega
    simp only [digitsAux, h3, h4, h5, h6, if_true, if_false, e1, e2, h6']
  exact hd

theorem fmtInt_two_zero (n : Nat) (h : n < 100) :
    fmtInt 2 true (n : Int) = [48 + n / 10, 48 + n % 10] := by
  have hs : ¬ ((n : Int) < 0) := by omega
  by_cases h10 : n < 10
  · have e1 : n / 10 = 0 := by omega
    have e2 : n % 10 = n := by omega
    simp [fmtInt, hs, decDigits_one n h10, e1, e2, List.replicate]
  · simp [fmtInt, hs, decDigits_two n (by omega) h]

theorem fmtInt_four (n : Nat) (h1 : 1000 ≤ n) (h2 : n < 10000) :
    fmtInt 4 false (toInt16 (n : Int))
      = [48 + n / 1000, 48 + n / 100 % 10, 48 + n / 10 % 10, 48 + n % 10] := by
  have hs : ¬ ((n : Int) < 0) := by omega
  rw [toInt16_of_range _ (by omega) (by omega)]
  simp [fmtInt, hs, decDigits_four n h1 h2]

theorem fmtInt_one (n : Nat) (h : n < 100) :
    fmtInt 1 false (n : Int) = if n < 10 then [48 + n] else [48 + n / 10, 48 + n % 10] := by
  have hs : ¬ ((n : Int) < 0) := by omega
  by_cases h10 : n < 10
  · simp [fmtInt, hs, decDigits_one n h10, h10]
  · simp [fmtInt, hs, decDigits_two n (by omega) h, h10]

theorem takeWhile_before_bar (ds rest : List Nat) (h : ∀ d ∈ ds, d ≠ 124) :
    (ds ++ 124 :: rest).takeWhile (· ≠ 124) = ds := by
  rw [List.takeWhile_append_of_pos (by intro x hx; simpa using h x hx)]
  simp

/-- The date/time field of the telemetry frame under the clock invariant and
1000 ≤ year ≤ 9999: the zero-padded fields followed by the tick count, which
takes one character below 10 and two characters from 10 on. -/
theorem dateTimeField_telemetryFrame {F : Type} (L : Libm F) (sp : SolarPositionParameters F)
    (hinv : ClockInvariant sp) (hy1 : 1000 ≤ sp.year) (hy2 : sp.year ≤ 9999) :
    dateTimeField (telemetryFrame L sp)
      = [48 + sp.year / 1000, 48 + sp.year / 100 % 10, 48 + sp.year / 10 % 10,
          48 + sp.year % 10, 48 + sp.month / 10, 48 + sp.month % 10, 48 + sp.day / 10,
          48 + sp.day % 10, 48 + sp.hour / 10, 48 + sp.hour % 10, 48 + sp.minute / 10,
          48 + sp.minute % 10, 48 + sp.second / 10, 48 + sp.second % 10]
        ++ (if sp.hundreds < 10 then [48 + sp.hundreds]
            else [48 + sp.hundreds / 10, 48 + sp.hundreds % 10]) := by
  obtain ⟨hm1, hm2, hd1, hd2, hh, hmi, hs, hu⟩ := hinv
  have hd31 : sp.day ≤ 31 := by
    have := daysInMonthOf_facts sp.year sp.month hm1 hm2
    omega
  unfold dateTimeField telemetryFrame
  rw [fmtInt_four _ hy1 (by omega), fmtInt_two_zero _ (by omega : sp.month < 100),
    fmtInt_two_zero _ (by omega : sp.day < 100), fmtInt_two_zero _ (by omega : sp.hour < 100),
    fmtInt_two_zero _ (by omega : sp.minute < 100),
    fmtInt_two_zero _ (by omega : sp.second < 100), fmtInt_one _ (by omega : sp.hundreds < 100)]
  simp only [List.append_assoc, List.cons_append, List.nil_append, List.drop_succ_cons,
    List.drop_zero]
  split
  · exact takeWhile_before_bar
      [48 + sp.year / 1000, 48 + sp.year / 100 % 10, 48 + sp.year / 10 % 10,
        48 + sp.year % 10, 48 + sp.month / 10, 48 + sp.month % 10, 48 + sp.day / 10,
        48 + sp.day % 10, 48 + sp.hour / 10, 48 + sp.hour % 10, 48 + sp.minute / 10,
        48 + sp.minute % 10, 48 + sp.second / 10, 48 + sp.second % 10, 48 + sp.hundreds] _
      (by simp only [List.mem_cons, List.mem_singleton, forall_eq_or_imp, forall_eq,
            List.not_mem_nil, false_implies, implies_true, and_true]
          omega)
  · exact takeWhile_before_bar
      [48 + sp.year / 1000, 48 + sp.year / 100 % 10, 48 + sp.year / 10 % 10,
        48 + sp.year % 10, 48 + sp.month / 10, 48 + sp.month % 10, 48 + sp.day / 10,
        48 + sp.day % 10, 48 + sp.hour / 10, 48 + sp.hour % 10, 48 + sp.minute / 10,
        48 + sp.minute % 10, 48 + sp.second / 10, 48 + sp.second % 10,
        48 + sp.hundreds / 10, 48 + sp.hundreds % 10] _
      (by simp only [List.mem_cons, List.mem_singleton, forall_eq_or_imp, forall_eq,
            List.not_mem_nil, false_implies, implies_true, and_true]
          omega)

theorem dateTimeField_length {F : Type} (L : Libm F) (sp : SolarPositionParameters F)
    (hinv : ClockInvariant sp) (hy1 : 1000 ≤ sp.year) (hy2 : sp.year ≤ 9999) :
    (dateTimeField (telemetryFrame L sp)).length = if sp.hundreds < 10 then 15 else 16 := by
  rw [dateTimeField_telemetryFrame L sp hinv hy1 hy2]
  split <;> simp

theorem daysBeforeMonth_december (y : Nat) : daysBeforeMonth y 12 = 334 + isLeapYear y := by
  rcases isLeapYear_zero_or_one y with h | h <;> simp [daysBeforeMonth, daysInMonthOf, h]

/-- The next calendar day has the next running day number. -/
theorem dayNumber_nextDay (y m d : Nat) (hm1 : 1 ≤ m) (hm2 : m ≤ 12)
    (hd2 : d ≤ daysInMonthOf y m) :
    dayNumber (nextDay y m d).1 (nextDay y m d).2.1 (nextDay y m d).2.2 = dayNumber y m d + 1 := by
  unfold nextDay
  split_ifs with h1 h2
  · rfl
  · have hd : d = daysInMonthOf y m := by omega
    simp only [dayNumber, daysBeforeMonth]
    omega
  · have hm : m = 12 := by omega
    have hd : d = 31 := by
      subst hm
      have : daysInMonthOf y 12 = 31 := rfl
      omega
    subst hm hd
    have h12 := daysBeforeMonth_december y
    have h1 : daysBeforeMonth (y + 1) 1 = 0 := rfl
    simp only [dayNumber, daysBeforeYear, daysInYear, h1, h12]
    omega

/-- The time increment at 23:59:59 with hundreds = 19 on a valid date goes to
midnight of the next calendar day. -/
theorem timeIncrement_rollover {F : Type} (sp : SolarPositionParameters F)
    (hy : sp.year < 65535) (hm1 : 1 ≤ sp.month) (hm2 : sp.month ≤ 12) (hd1 : 1 ≤ sp.day)
    (hd2 : sp.day ≤ daysInMonthOf sp.year sp.month)
    (ht : sp.hour = 23 ∧ sp.minute = 59 ∧ sp.second = 59 ∧ sp.hundreds = 19) :
    ∃ sp', timeIncrement sp = some sp'
      ∧ sp'.hour = 0 ∧ sp'.minute = 0 ∧ sp'.second = 0 ∧ sp'.hundreds = 0
      ∧ sp'.year = (nextDay sp.year sp.month sp.day).1
      ∧ sp'.month = (nextDay sp.year sp.month sp.day).2.1
      ∧ sp'.day = (nextDay sp.year sp.month sp.day).2.2 := by
  obtain ⟨h1, h2, h3, h4⟩ := ht
  have f1 := daysInMonthOf_facts sp.year sp.month hm1 hm2
  unfold timeIncrement nextDay
  simp only [h1, h2, h3, h4]
  rw [daysInMonthAt_of_month sp.month hm1 hm2]
  simp only []
  split_ifs <;> refine ⟨_, rfl, ?_⟩ <;> (try simp only [true_and, and_true]) <;> omega

theorem scanDigits_all_digits (w : Nat) :
    ∀ (acc : Nat) (ds : List Nat), (∀ d ∈ ds, isdigit d = true) →
      scanDigits w acc ds = (numeralAcc acc (ds.take w), ds.drop w) := by
  induction w with
  | zero => intro acc ds _; simp [scanDigits, numeralAcc]
  | succ w ih =>
    intro acc ds h
    cases ds with
    | nil => simp [scanDigits, numeralAcc]
    | cons d ds =>
      have hd : isdigit d = true := h d (by simp)
      simp only [scanDigits, hd, if_true, List.take_succ_cons, List.drop_succ_cons]
      rw [ih _ ds (fun x hx => h x (by simp [hx]))]
      simp [numeralAcc]

theorem scanUInt_nil (w : Nat) : scanUInt w [] = none := rfl

theorem scanUInt_all_digits (w : Nat) (hw : 1 ≤ w) (d : Nat) (ds : List Nat)
    (h : ∀ x ∈ d :: ds, isdigit x = true) :
    scanUInt w (d :: ds)
      = some ((numeralAcc 0 ((d :: ds).take w) : Int), (d :: ds).drop w) := by
  have hd : isdigit d = true := h d (by simp)
  have hd' := (isdigit_iff d).mp hd
  have hsign : ¬ (d = 45 ∨ d = 43) := by omega
  unfold scanUInt
  rw [skipSpace_digit d _ hd]
  simp only [hsign, if_false, hd, hw, and_self, if_true, scanDigits_all_digits w 0 (d :: ds) h]

/-- On a token of decimal digits `sscanf` assigns no more fields than the
token has digits for: when the digits end within the first `i` conversions, at
most `i` values are assigned. -/
theorem sscanfUInts_length_le (ws : List Nat) :
    ∀ (ds : List Nat) (i : Nat), (∀ d ∈ ds, isdigit d = true) → (∀ w ∈ ws, 1 ≤ w) →
      ds.length ≤ (ws.take i).sum → (sscanfUInts ws ds).length ≤ i := by
  induction ws with
  | nil => intro ds i _ _ _; simp [sscanfUInts]
  | cons w ws ih =>
    intro ds i hd hw hlen
    cases ds with
    | nil => simp [sscanfUInts, scanUInt_nil]
    | cons d ds =>
      cases i with
      | zero => simp at hlen
      | succ i =>
        rw [sscanfUInts, scanUInt_all_digits w (hw w (by simp)) d ds hd]
        simp only [List.length_cons, Nat.add_le_add_iff_right]
        apply ih _ i (fun x hx => hd x (List.mem_of_mem_drop hx))
          (fun x hx => hw x (by simp [hx]))
        simp only [List.take_succ_cons, List.sum_cons, List.length_cons] at hlen
        simp only [List.length_drop, List.length_cons]
        omega

theorem getD_sscanf_zero (ws ds : List Nat) (i j : Nat) (hd : ∀ d ∈ ds, isdigit d = true)
    (hw : ∀ w ∈ ws, 1 ≤ w) (hlen : ds.length ≤ (ws.take i).sum) (hij : i ≤ j) :
    toUInt8 (toInt16 ((sscanfUInts ws ds).getD j 0)) = 0 := by
  have := sscanfUInts_length_le ws ds i hd hw hlen
  rw [List.getD_eq_default _ _ (by omega)]
  decide
/-- `executeCommand` on a command whose first token is 15 decimal digits: the
seven date/time fields are the numbers the digits spell, position by position. -/
theorem executeCommand_15_digits {F : Type} (L : Libm F) (sp : SolarPositionParameters F)
    (d1 d2 d3 d4 d5 d6 d7 d8 d9 d10 d11 d12 d13 d14 d15 : Nat) (k : Nat)
    (more junk : List Nat)
    (hd : ∀ d ∈ [d1, d2, d3, d4, d5, d6, d7, d8, d9, d10, d11, d12, d13, d14, d15],
      isdigit d = true)
    (hmore : more = [] ∨ ∃ r, more = 124 :: r) (hnul : 0 ∉ more) :
    ∃ sp', executeCommand L
        (List.replicate k 124
          ++ [d1, d2, d3, d4, d5, d6, d7, d8, d9, d10, d11, d12, d13, d14, d15]
          ++ more ++ 0 :: junk) sp = some sp'
      ∧ sp'.year = 1000 * (d1 - 48) + 100 * (d2 - 48) + 10 * (d3 - 48) + (d4 - 48)
      ∧ sp'.month = 10 * (d5 - 48) + (d6 - 48)
      ∧ sp'.day = 10 * (d7 - 48) + (d8 - 48)
      ∧ sp'.hour = 10 * (d9 - 48) + (d10 - 48)
      ∧ sp'.minute = 10 * (d11 - 48) + (d12 - 48)
      ∧ sp'.second = 10 * (d13 - 48) + (d14 - 48)
      ∧ sp'.hundreds = d15 - 48 := by
  have hdig : ∀ d ∈ [d1, d2, d3, d4, d5, d6, d7, d8, d9, d10, d11, d12, d13, d14, d15],
      48 ≤ d ∧ d ≤ 57 := fun d h => (isdigit_iff d).mp (hd d h)
  have hbar : 124 ∉ [d1, d2, d3, d4, d5, d6, d7, d8, d9, d10, d11, d12, d13, d14, d15] :=
    fun h => by have := hdig 124 h; omega
  have hzero : 0 ∉ [d1, d2, d3, d4, d5, d6, d7, d8, d9, d10, d11, d12, d13, d14, d15] :=
    fun h => by have := hdig 0 h; omega
  have hstr : cString (List.replicate k 124
      ++ [d1, d2, d3, d4, d5, d6, d7, d8, d9, d10, d11, d12, d13, d14, d15]
      ++ more ++ 0 :: junk)
      = some (List.replicate k 124
          ++ [d1, d2, d3, d4, d5, d6, d7, d8, d9, d10, d11, d12, d13, d14, d15] ++ more) := by
    apply cString_append
    simp only [List.mem_append, not_or]
    exact ⟨⟨fun h => by have := List.eq_of_mem_replicate h; omega, hzero⟩, hnul⟩
  have htok : ∃ r1, strtok 124 (List.replicate k 124
      ++ [d1, d2, d3, d4, d5, d6, d7, d8, d9, d10, d11, d12, d13, d14, d15] ++ more)
      = (some [d1, d2, d3, d4, d5, d6, d7, d8, d9, d10, d11, d12, d13, d14, d15], r1) := by
    rw [List.append_assoc, strtok_leading]
    rcases hmore with rfl | ⟨r, rfl⟩
    · exact ⟨[], by rw [List.append_nil]; exact strtok_token 124 _ (by simp) hbar⟩
    · exact ⟨r, strtok_token_delim 124 _ r (by simp) hbar⟩
  obtain ⟨r1, htok⟩ := htok
  obtain ⟨sp', he, hy, hmo, hda, hho, hmi, hse, hhu⟩ :=
    executeCommand_datetime L sp _ _ _ r1 hstr htok
  have h1 := hdig d1 (by simp); have h2 := hdig d2 (by simp); have h3 := hdig d3 (by simp)
  have h4 := hdig d4 (by simp); have h5 := hdig d5 (by simp); have h6 := hdig d6 (by simp)
  have h7 := hdig d7 (by simp); have h8 := hdig d8 (by simp); have h9 := hdig d9 (by simp)
  have h10 := hdig d10 (by simp); have h11 := hdig d11 (by simp); have h12 := hdig d12 (by simp)
  have h13 := hdig d13 (by simp); have h14 := hdig d14 (by simp); have h15 := hdig d15 (by simp)
  rw [sscanf_15_digits _ _ _ _ _ _ _ _ _ _ _ _ _ _ _ hd] at hy hmo hda hho hmi hse hhu
  simp only [List.getD_cons_zero, List.getD_cons_succ, toUInt16_toInt16, toUInt8_toInt16,
    numeralAcc, List.foldl_cons, List.foldl_nil] at hy hmo hda hho hmi hse hhu
  refine ⟨sp', he, ?_, ?_, ?_, ?_, ?_, ?_, ?_⟩ <;> omega
/-- `calculate_julian_day` depends on its last argument only through the
integer quotient `hundreds / 36000`. -/
theorem calculate_julian_day_tick {F : Type} [DoubleArith F]
    (year month day hour minute second t1 t2 : Int)
    (h : Int.tdiv t1 36000 = Int.tdiv t2 36000) :
    (calculate_julian_day year month day hour minute second t1 : F)
      = calculate_julian_day year month day hour minute second t2 := by
  unfold calculate_julian_day
  rw [h]

theorem tdiv_tick_zero (t : Int) (h1 : 0 ≤ t) (h2 : t ≤ 19) : Int.tdiv t 36000 = 0 := by
  rw [Int.tdiv_eq_ediv h1 (by decide)]
  omega

/-- For tick values in 0..19 the Julian Day does not depend on the tick, in any
arithmetic. -/
theorem calculate_julian_day_tick_free {F : Type} [DoubleArith F]
    (year month day hour minute second t1 t2 : Int)
    (h1 : 0 ≤ t1 ∧ t1 ≤ 19) (h2 : 0 ≤ t2 ∧ t2 ≤ 19) :
    (calculate_julian_day year month day hour minute second t1 : F)
      = calculate_julian_day year month day hour minute second t2 :=
  calculate_julian_day_tick _ _ _ _ _ _ t1 t2
    (by rw [tdiv_tick_zero t1 h1.1 h1.2, tdiv_tick_zero t2 h2.1 h2.2])
theorem rxBody_overflow (acc : List Nat) (c : Nat) (hc : c ≠ 62) (hlen : 40 ≤ acc.length) :
    rxBody (accState acc) c = RxIter.fault := by
  have h0 : 40 - acc.length = 0 := by omega
  have hidx : ¬ (acc.length < (acc ++ List.replicate (40 - acc.length) 0).length) := by
    simp only [List.length_append, List.length_replicate, h0]; omega
  unfold rxBody
  dsimp only [accState]
  rw [if_pos rfl, if_neg hc, if_neg hidx]

/-- A frame body of more than 40 bytes makes the loop store outside the
buffer. -/
theorem ClockAndDataSet_overflow {F : Type} (L : Libm F) (sp : SolarPositionParameters F)
    (p b s : List Nat) (hp : 60 ∉ p) (hb : 62 ∉ b) (hlen : 40 < b.length) :
    ClockAndDataSet L sp (p ++ 60 :: b ++ 62 :: s) = RxOutcome.fault := by
  obtain ⟨c, rest, hdrop⟩ : ∃ c rest, b.drop 40 = c :: rest := by
    cases h : b.drop 40 with
    | nil =>
      have := congrArg List.length h
      simp only [List.length_drop, List.length_nil] at this
      omega
    | cons c rest => exact ⟨c, rest, rfl⟩
  have hsplit : b = b.take 40 ++ c :: rest := by rw [← hdrop, List.take_append_drop]
  have htake : 62 ∉ b.take 40 := fun h => hb (List.mem_of_mem_take h)
  have hc : c ≠ 62 := fun e => hb (by rw [hsplit]; simp [e])
  have hl40 : (b.take 40).length = 40 := by simp only [List.length_take]; omega
  unfold ClockAndDataSet
  rw [List.append_assoc, rxLoop_idle L sp _ (by decide) p _ hp, List.cons_append, rxLoop_start,
    hsplit, List.append_assoc,
    rxLoop_accumulate L sp (b.take 40) [] _ htake (by simp only [List.length_nil]; omega),
    List.nil_append, List.cons_append, rxLoop,
    rxBody_overflow (b.take 40) c hc (by omega)]

theorem cString_none (l : List Nat) (h : 0 ∉ l) : cString l = none := by
  induction l with
  | nil => rfl
  | cons c cs ih =>
    have hc : c ≠ 0 := fun e => h (by simp [e])
    simp [cString, hc, ih (fun e => h (by simp [e]))]

/-- While the body is being read, after `i` of its bytes the locals hold those
bytes at the front of the buffer and `index` is `i`. -/
theorem ClockAndDataSet_body_read {F : Type} (L : Libm F) (sp : SolarPositionParameters F)
    (b : List Nat) (hb : 62 ∉ b) (hlen : b.length ≤ 40) :
    ClockAndDataSet L sp (60 :: b) = RxOutcome.waiting sp (accState b) := by
  unfold ClockAndDataSet
  have := rxLoop_accumulate L sp b [] [] hb (by simpa using hlen)
  rw [List.append_nil] at this
  rw [rxLoop_start, this]
  rfl

/-- The stored azimuth is the normalisation of the raw azimuth. -/
theorem calculate_solar_position_azimuth {F : Type} [DoubleArith F] (L : Libm F)
    (sp : SolarPositionParameters F) :
    ∃ raw : F, (calculate_solar_position L sp).azimuth = normalizeAzimuth raw :=
  ⟨_, rfl⟩

theorem fmod_rat_360 (x : ℚ) :
    (DoubleArith.fmod x (360.0 : ℚ) : ℚ)
      = x - 360 * (((if 0 ≤ x / 360 then ⌊x / 360⌋ else ⌈x / 360⌉) : ℤ) : ℚ) := by
  have h : (360.0 : ℚ) = 360 := by norm_num
  simp only [DoubleArith.fmod, h]

/-- The exact remainder `fmod x 360` lies strictly between -360 and 360. -/
theorem fmod_rat_360_range (x : ℚ) :
    -360 < (DoubleArith.fmod x (360.0 : ℚ) : ℚ) ∧ (DoubleArith.fmod x (360.0 : ℚ) : ℚ) < 360 := by
  rw [fmod_rat_360]
  split
  · have h1 := Int.floor_le (x / 360)
    have h2 := Int.lt_floor_add_one (x / 360)
    have e : x = 360 * (x / 360) := by ring
    constructor <;> nlinarith
  · have h1 := Int.le_ceil (x / 360)
    have h2 := Int.ceil_lt_add_one (x / 360)
    have e : x = 360 * (x / 360) := by ring
    constructor <;> nlinarith

/-- In exact arithmetic the normalised azimuth lies in [0, 360). -/
theorem normalizeAzimuth_rat_range (x : ℚ) :
    0 ≤ normalizeAzimuth x ∧ normalizeAzimuth x < 360 := by
  have h := fmod_rat_360_range x
  have h360 : (360.0 : ℚ) = 360 := by norm_num
  have h0 : (DoubleArith.ofInt 0 : ℚ) = 0 := by simp [DoubleArith.ofInt]
  unfold normalizeAzimuth
  simp only [DoubleArith.lt, h0]
  split
  · rename_i hneg
    have hneg' := of_decide_eq_true hneg
    rw [h360] at hneg' h ⊢
    constructor <;> linarith [h.1, h.2]
  · rename_i hneg
    have hneg' : ¬ (DoubleArith.fmod x (360.0 : ℚ) : ℚ) < 0 := fun hh => hneg (decide_eq_true hh)
    exact ⟨not_lt.mp hneg', h.2⟩
theorem roundEven_le (q : ℚ) (n : ℤ) (h : q ≤ n) : roundEven q ≤ n := by
  have hf : ⌊q⌋ ≤ n := by
    have := Int.floor_le_floor h
    rwa [Int.floor_intCast] at this
  unfold roundEven
  split
  · exact hf
  · have hlt : ⌊q⌋ < n := by
      rcases lt_or_eq_of_le hf with h1 | h1
      · exact h1
      · exfalso
        have h2 : (⌊q⌋ : ℚ) ≤ q := Int.floor_le q
        have h3 : q - ⌊q⌋ = 0 := by rw [h1] at h2 ⊢; linarith
        rename_i hn
        rw [h3] at hn
        norm_num at hn
    split <;> (try split) <;> omega

theorem le_roundEven (q : ℚ) (n : ℤ) (h : (n : ℚ) ≤ q) : n ≤ roundEven q := by
  have hf : n ≤ ⌊q⌋ := Int.le_floor.mpr h
  unfold roundEven
  split <;> (try split) <;> (try split) <;> omega

theorem roundEven_intCast (n : ℤ) : roundEven (n : ℚ) = n :=
  le_antisymm (roundEven_le _ n (le_refl _)) (le_roundEven _ n (le_refl _))

/-- A rational less than half a unit below an integer rounds to that integer. -/
theorem roundEven_of_close (q : ℚ) (n : ℤ) (h1 : (n : ℚ) - 1 / 2 < q) (h2 : q ≤ n) :
    roundEven q = n := by
  apply le_antisymm (roundEven_le q n h2)
  have hf : n - 1 ≤ ⌊q⌋ := Int.le_floor.mpr (by push_cast; linarith)
  rcases eq_or_lt_of_le hf with he | hl
  · have hr : 1 / 2 < q - ⌊q⌋ := by rw [← he]; push_cast; linarith
    have hr' : ¬ (q - ⌊q⌋ < 1 / 2) := not_lt.mpr hr.le
    unfold roundEven
    rw [if_neg hr', if_pos hr]
    omega
  · exact le_trans (by omega) (le_roundEven q ⌊q⌋ (Int.floor_le q))

/-- 360 lies on every binary grid of spacing `2 ^ e` with `e ≤ 3`. -/
theorem grid_360 (e : ℤ) (he : e ≤ 3) : ∃ N : ℤ, (N : ℚ) * (2 : ℚ) ^ e = 360 := by
  refine ⟨45 * 2 ^ (3 - e).toNat, ?_⟩
  have hk : (((3 - e).toNat : ℕ) : ℤ) = 3 - e := Int.toNat_of_nonneg (by omega)
  have h2 : ((2 : ℚ) ^ (3 - e).toNat) = (2 : ℚ) ^ (3 - e) := by
    rw [← zpow_natCast, hk]
  push_cast
  rw [h2, mul_assoc, ← zpow_add₀ (two_ne_zero)]
  have : 3 - e + e = 3 := by ring
  rw [this]
  norm_num

theorem log_le_eight (z : ℚ) (h0 : 0 < z) (h : z < 512) : Int.log 2 |z| ≤ 8 := by
  rw [abs_of_pos h0]
  have : Int.log 2 z < 9 := (Int.lt_zpow_iff_log_lt (by decide) h0).mp (by norm_num; exact h)
  omega

theorem roundBinary_nonneg (p : Nat) (z : ℚ) (h0 : 0 ≤ z) : 0 ≤ roundBinary p z := by
  unfold roundBinary
  split
  · exact le_refl _
  · have hu : (0 : ℚ) < (2 : ℚ) ^ (Int.log 2 |z| - ((p : Int) - 1)) := zpow_pos (by norm_num) _
    have hq : ((0 : ℤ) : ℚ) ≤ z / (2 : ℚ) ^ (Int.log 2 |z| - ((p : Int) - 1)) := by
      simpa using div_nonneg h0 hu.le
    have := le_roundEven _ 0 hq
    exact mul_nonneg (by exact_mod_cast this) hu.le

theorem roundBinary_le_360 (p : Nat) (hp : 6 ≤ p) (z : ℚ) (h0 : 0 < z) (h : z ≤ 360) :
    roundBinary p z ≤ 360 := by
  have hlog := log_le_eight z h0 (by linarith)
  obtain ⟨N, hN⟩ := grid_360 (Int.log 2 |z| - ((p : Int) - 1)) (by omega)
  have hu : (0 : ℚ) < (2 : ℚ) ^ (Int.log 2 |z| - ((p : Int) - 1)) := zpow_pos (by norm_num) _
  unfold roundBinary
  rw [if_neg (ne_of_gt h0)]
  have hq : z / (2 : ℚ) ^ (Int.log 2 |z| - ((p : Int) - 1)) ≤ N := by
    rw [div_le_iff₀ hu, hN]; exact h
  have := roundEven_le _ N hq
  calc (roundEven (z / (2 : ℚ) ^ (Int.log 2 |z| - ((p : Int) - 1))) : ℚ)
        * (2 : ℚ) ^ (Int.log 2 |z| - ((p : Int) - 1))
      ≤ (N : ℚ) * (2 : ℚ) ^ (Int.log 2 |z| - ((p : Int) - 1)) :=
        mul_le_mul_of_nonneg_right (by exact_mod_cast this) hu.le
    _ = 360 := hN

theorem roundBinary_ge_360 (p : Nat) (hp : 6 ≤ p) (z : ℚ) (h : 360 ≤ z) (h2 : z < 512) :
    360 ≤ roundBinary p z := by
  have h0 : 0 < z := by linarith
  have hlog := log_le_eight z h0 h2
  obtain ⟨N, hN⟩ := grid_360 (Int.log 2 |z| - ((p : Int) - 1)) (by omega)
  have hu : (0 : ℚ) < (2 : ℚ) ^ (Int.log 2 |z| - ((p : Int) - 1)) := zpow_pos (by norm_num) _
  unfold roundBinary
  rw [if_neg (ne_of_gt h0)]
  have hq : (N : ℚ) ≤ z / (2 : ℚ) ^ (Int.log 2 |z| - ((p : Int) - 1)) := by
    rw [le_div_iff₀ hu, hN]; exact h
  have := le_roundEven _ N hq
  calc (360 : ℚ) = (N : ℚ) * (2 : ℚ) ^ (Int.log 2 |z| - ((p : Int) - 1)) := hN.symm
    _ ≤ (roundEven (z / (2 : ℚ) ^ (Int.log 2 |z| - ((p : Int) - 1))) : ℚ)
        * (2 : ℚ) ^ (Int.log 2 |z| - ((p : Int) - 1)) :=
        mul_le_mul_of_nonneg_right (by exact_mod_cast this) hu.le

/-- 360 is a floating-point number of every precision of at least 6 bits. -/
theorem roundBinary_360 (p : Nat) (hp : 6 ≤ p) : roundBinary p 360 = 360 :=
  le_antisymm (roundBinary_le_360 p hp 360 (by norm_num) (le_refl _))
    (roundBinary_ge_360 p hp 360 (le_refl _) (by norm_num))
theorem log_eq_eight (z : ℚ) (h1 : 256 ≤ z) (h2 : z < 512) : Int.log 2 |z| = 8 := by
  have h0 : 0 < z := by linarith
  apply le_antisymm (log_le_eight z h0 h2)
  rw [abs_of_pos h0]
  exact (Int.zpow_le_iff_le_log (by decide) h0).mp (by norm_num; exact h1)

/-- A number less than half a unit in the last place below 360 rounds to 360. -/
theorem roundBinary_eq_360_of_close (p : Nat) (hp : 6 ≤ p) (z : ℚ) (h1 : 256 ≤ z)
    (h2 : z ≤ 360) (hclose : 360 - z < (2 : ℚ) ^ (9 - (p : Int)) / 2) :
    roundBinary p z = 360 := by
  have h0 : 0 < z := by linarith
  have hlog := log_eq_eight z h1 (by linarith)
  have he : Int.log 2 |z| - ((p : Int) - 1) = 9 - (p : Int) := by omega
  obtain ⟨N, hN⟩ := grid_360 (9 - (p : Int)) (by omega)
  have hu : (0 : ℚ) < (2 : ℚ) ^ (9 - (p : Int)) := zpow_pos (by norm_num) _
  unfold roundBinary
  rw [if_neg (ne_of_gt h0), he]
  have hq2 : z / (2 : ℚ) ^ (9 - (p : Int)) ≤ N := by
    rw [div_le_iff₀ hu, hN]; exact h2
  have hq1 : (N : ℚ) - 1 / 2 < z / (2 : ℚ) ^ (9 - (p : Int)) := by
    rw [lt_div_iff₀ hu, sub_mul, hN]; linarith
  rw [roundEven_of_close _ N hq1 hq2, hN]

section BinaryFloatLemmas

variable (p : Nat)

theorem BinaryFloat.val_360 (hp : 6 ≤ p) : ((360.0 : BinaryFloat p)).val = 360 := by
  show roundBinary p (360.0 : ℚ) = 360
  rw [(by norm_num : (360.0 : ℚ) = 360)]
  exact roundBinary_360 p hp

theorem BinaryFloat.val_zero : (DoubleArith.ofInt 0 : BinaryFloat p).val = 0 := by
  show roundBinary p ((0 : ℤ) : ℚ) = 0
  simp [roundBinary]

/-- The value of the normalised azimuth in floating point: the exact remainder,
and the rounded sum with 360 when the remainder is negative. -/
theorem normalizeAzimuth_val (hp : 6 ≤ p) (raw : BinaryFloat p) :
    (normalizeAzimuth raw).val
      = if (DoubleArith.fmod raw.val (360.0 : ℚ) : ℚ) < 0
        then roundBinary p ((DoubleArith.fmod raw.val (360.0 : ℚ) : ℚ) + 360)
        else (DoubleArith.fmod raw.val (360.0 : ℚ) : ℚ) := by
  have h360 := BinaryFloat.val_360 p hp
  have h0 := BinaryFloat.val_zero p
  have hq : (360.0 : ℚ) = 360 := by norm_num
  have hf : (DoubleArith.fmod raw (360.0 : BinaryFloat p)).val
      = (DoubleArith.fmod raw.val (360.0 : ℚ) : ℚ) := by
    show (DoubleArith.fmod raw.val (360.0 : BinaryFloat p).val : ℚ) = _
    rw [h360, hq]
  unfold normalizeAzimuth
  by_cases hneg : (DoubleArith.fmod raw.val (360.0 : ℚ) : ℚ) < 0
  · have hlt : DoubleArith.lt (DoubleArith.fmod raw (360.0 : BinaryFloat p))
        (DoubleArith.ofInt 0) = true := by
      show decide ((DoubleArith.fmod raw (360.0 : BinaryFloat p)).val
        < (DoubleArith.ofInt 0 : BinaryFloat p).val) = true
      rw [hf, h0]; exact decide_eq_true hneg
    simp only [hlt, if_true, hneg]
    show roundBinary p ((DoubleArith.fmod raw (360.0 : BinaryFloat p)).val
      + (360.0 : BinaryFloat p).val) = _
    rw [hf, h360]
  · have hlt : DoubleArith.lt (DoubleArith.fmod raw (360.0 : BinaryFloat p))
        (DoubleArith.ofInt 0) = false := by
      show decide ((DoubleArith.fmod raw (360.0 : BinaryFloat p)).val
        < (DoubleArith.ofInt 0 : BinaryFloat p).val) = false
      rw [hf, h0]; exact decide_eq_false hneg
    simp only [hlt, hneg, if_false, Bool.false_eq_true]
    exact hf

/-- In floating point the normalised azimuth lies in [0, 360]. -/
theorem normalizeAzimuth_val_range (hp : 6 ≤ p) (raw : BinaryFloat p) :
    0 ≤ (normalizeAzimuth raw).val ∧ (normalizeAzimuth raw).val ≤ 360 := by
  have h := fmod_rat_360_range raw.val
  rw [normalizeAzimuth_val p hp raw]
  split
  · rename_i hneg
    exact ⟨roundBinary_nonneg p _ (by linarith [h.1]),
      roundBinary_le_360 p hp _ (by linarith [h.1]) (by linarith)⟩
  · rename_i hneg
    exact ⟨not_lt.mp hneg, h.2.le⟩

end BinaryFloatLemmas

theorem fmod_rat_360_small_neg (x : ℚ) (h1 : -360 < x) (h2 : x < 0) :
    (DoubleArith.fmod x (360.0 : ℚ) : ℚ) = x := by
  rw [fmod_rat_360]
  have hq : ¬ (0 ≤ x / 360) := by
    rw [not_le]; exact div_neg_of_neg_of_pos h2 (by norm_num)
  rw [if_neg hq]
  have hc : ⌈x / 360⌉ = 0 := by
    rw [Int.ceil_eq_iff]
    constructor
    · have : (-1 : ℚ) < x / 360 := by rw [lt_div_iff₀ (by norm_num)]; linarith
      push_cast; linarith
    · push_cast; exact (not_le.mp hq).le
  rw [hc]; simp

/-- A negative raw azimuth of magnitude below half a unit in the last place of
360 is normalised to exactly 360. -/
theorem normalizeAzimuth_tiny_negative (p : Nat) (hp : 6 ≤ p) (raw : BinaryFloat p)
    (h1 : raw.val < 0) (h2 : -raw.val < (2 : ℚ) ^ (9 - (p : Int)) / 2) (h3 : -104 ≤ raw.val) :
    (normalizeAzimuth raw).val = 360 := by
  have hf := fmod_rat_360_small_neg raw.val (by linarith) h1
  rw [normalizeAzimuth_val p hp raw, hf, if_pos h1]
  exact roundBinary_eq_360_of_close p hp _ (by linarith) (by linarith) (by linarith)

/-! ## The claims -/

/-- C1: the tick handler preserves the clock invariant. For every record with
month in 1..12, 1 ≤ day ≤ days-in-month(year, month), hour < 24, minute < 60,
second < 60 and hundreds < 20, one tick with the gate open has a result, the
result satisfies the same conditions, and the index `month - 1` at which the
days-per-month table is read lies inside its 12 entries. -/
theorem tick_preserves_clock_invariant {F : Type} [DoubleArith F] (L : Libm F)
    (portb_in : Nat) (sp : SolarPositionParameters F)
    (hgate : portb_in &&& PIN1_bm ≠ 0) (hinv : ClockInvariant sp) :
    (0 ≤ (sp.month : Int) - 1 ∧ (sp.month : Int) - 1 < daysInMonth.length
      ∧ (daysInMonthAt ((sp.month : Int) - 1)).isSome)
    ∧ ∃ sp' ev, ISR_RTC_CNT_vect L portb_in sp = some (sp', ev) ∧ ClockInvariant sp' := by
  refine ⟨⟨?_, ?_, ?_⟩, ?_⟩
  · have := hinv.1; omega
  · have := hinv.2.1; simp only [daysInMonth, List.length]; omega
  · rw [daysInMonthAt_of_month sp.month hinv.1 hinv.2.1]; rfl
  · obtain ⟨sp2, h2, hi2⟩ :=
      timeIncrement_invariant _ (calculate_solar_position_invariant L sp hinv)
    exact ⟨sp2, _, ISR_open L portb_in sp sp2 hgate h2, hi2⟩

/-- Witness of C1: the compiled-in initial record, gate open. -/
theorem tick_preserves_clock_invariant_witness :
    (2 &&& PIN1_bm ≠ 0 ∧ ClockInvariant (solar_params_init : SolarPositionParameters ℚ))
    ∧ ((0 ≤ ((solar_params_init : SolarPositionParameters ℚ).month : Int) - 1
        ∧ ((solar_params_init : SolarPositionParameters ℚ).month : Int) - 1 < daysInMonth.length
        ∧ (daysInMonthAt
            (((solar_params_init : SolarPositionParameters ℚ).month : Int) - 1)).isSome)
      ∧ ∃ sp' ev, ISR_RTC_CNT_vect Libm.smallAngle 2 solar_params_init = some (sp', ev)
          ∧ ClockInvariant sp') :=
  ⟨⟨by decide, by decide⟩,
    tick_preserves_clock_invariant Libm.smallAngle 2 solar_params_init (by decide) (by decide)⟩

/-- C2: year-end cascade. For every year y < 65535, one tick with the gate open
on hundreds=19, second=59, minute=59, hour=23, day=31, month=12, year=y yields
hundreds=0, second=0, minute=0, hour=0, day=1, month=1, year=y+1. -/
theorem year_end_cascade {F : Type} [DoubleArith F] (L : Libm F) (portb_in : Nat)
    (sp : SolarPositionParameters F) (y : Nat) (hgate : portb_in &&& PIN1_bm ≠ 0)
    (hy : y < 65535)
    (hsp : sp.hundreds = 19 ∧ sp.second = 59 ∧ sp.minute = 59 ∧ sp.hour = 23 ∧ sp.day = 31
      ∧ sp.month = 12 ∧ sp.year = y) :
    ∃ sp' ev, ISR_RTC_CNT_vect L portb_in sp = some (sp', ev)
      ∧ sp'.hundreds = 0 ∧ sp'.second = 0 ∧ sp'.minute = 0 ∧ sp'.hour = 0 ∧ sp'.day = 1
      ∧ sp'.month = 1 ∧ sp'.year = y + 1 := by
  obtain ⟨h1, h2, h3, h4, h5, h6, h7⟩ := hsp
  have hstep : timeIncrement (calculate_solar_position L sp)
      = some { calculate_solar_position L sp with
          hundreds := 0, second := 0, minute := 0, hour := 0, day := 1, month := 1,
          year := (y + 1) % 65536 } := by
    unfold timeIncrement
    simp [h1, h2, h3, h4, h5, h6, h7, daysInMonthAt, daysInMonth]
  refine ⟨_, _, ISR_open L portb_in sp _ hgate hstep, rfl, rfl, rfl, rfl, rfl, rfl, ?_⟩
  show (y + 1) % 65536 = y + 1
  omega

/-- Witness of C2: 2024-12-31 23:59:59.19 advances to 2025-01-01 00:00:00.0. -/
theorem year_end_cascade_witness :
    ∃ sp' ev, ISR_RTC_CNT_vect Libm.smallAngle 2
        ({ (solar_params_init : SolarPositionParameters ℚ) with
            hundreds := 19, second := 59, minute := 59, hour := 23, day := 31, month := 12,
            year := 2024 }) = some (sp', ev)
      ∧ sp'.hundreds = 0 ∧ sp'.second = 0 ∧ sp'.minute = 0 ∧ sp'.hour = 0 ∧ sp'.day = 1
      ∧ sp'.month = 1 ∧ sp'.year = 2024 + 1 :=
  year_end_cascade Libm.smallAngle 2 _ 2024 (by decide) (by decide)
    ⟨rfl, rfl, rfl, rfl, rfl, rfl, rfl⟩

/-- C3: `isLeapYear` implements the Gregorian leap rule. For every 16-bit year
y, `isLeapYear y` is 1 if and only if (y is divisible by 4 and not by 100) or y
is divisible by 400, and 0 otherwise; `isLeapYear 2024 = 1`,
`isLeapYear 1900 = 0`, `isLeapYear 2000 = 1`. -/
theorem isLeapYear_gregorian (y : Nat) (_hy : y < 65536) :
    (isLeapYear y = 1 ↔ ((4 ∣ y ∧ ¬ 100 ∣ y) ∨ 400 ∣ y))
    ∧ (¬ ((4 ∣ y ∧ ¬ 100 ∣ y) ∨ 400 ∣ y) → isLeapYear y = 0)
    ∧ isLeapYear 2024 = 1 ∧ isLeapYear 1900 = 0 ∧ isLeapYear 2000 = 1 := by
  have hiff : isLeapYear y = 1 ↔ ((4 ∣ y ∧ ¬ 100 ∣ y) ∨ 400 ∣ y) := by
    unfold isLeapYear
    simp only [Nat.dvd_iff_mod_eq_zero]
    split <;> simp_all
  refine ⟨hiff, ?_, by decide, by decide, by decide⟩
  intro hn
  rcases isLeapYear_zero_or_one y with h | h
  · exact h
  · exact absurd (hiff.mp h) hn

/-- Witness of C3: the year 2024. -/
theorem isLeapYear_gregorian_witness :
    (isLeapYear 2024 = 1 ↔ ((4 ∣ 2024 ∧ ¬ 100 ∣ 2024) ∨ 400 ∣ 2024))
    ∧ (¬ ((4 ∣ 2024 ∧ ¬ 100 ∣ 2024) ∨ 400 ∣ 2024) → isLeapYear 2024 = 0)
    ∧ isLeapYear 2024 = 1 ∧ isLeapYear 1900 = 0 ∧ isLeapYear 2000 = 1 :=
  isLeapYear_gregorian 2024 (by decide)

/-- C4: the gate. A tick that finds the external-set signal asserted (bit 1 of
`PORTB.IN` reads 0) returns the record unchanged in every field, and its only
effect is clearing the interrupt flag: the engine is not invoked and nothing is
printed. -/
theorem gate_closed_tick {F : Type} [DoubleArith F] (L : Libm F) (portb_in : Nat)
    (sp : SolarPositionParameters F) (hgate : portb_in &&& PIN1_bm = 0) :
    ∃ ev, ISR_RTC_CNT_vect L portb_in sp = some (sp, ev)
      ∧ ev = [Event.intflagsClear]
      ∧ Event.solarPosition ∉ ev ∧ ∀ bytes, Event.printf bytes ∉ ev := by
  refine ⟨[Event.intflagsClear], ?_, rfl, ?_, ?_⟩
  · unfold ISR_RTC_CNT_vect
    rw [if_neg (by simpa using hgate)]
  · simp
  · intro bytes; simp

/-- Witness of C4: `PORTB.IN = 0xFD` (every pin high but pin 1). -/
theorem gate_closed_tick_witness :
    ∃ ev, ISR_RTC_CNT_vect Libm.smallAngle 253 (solar_params_init : SolarPositionParameters ℚ)
        = some (solar_params_init, ev)
      ∧ ev = [Event.intflagsClear]
      ∧ Event.solarPosition ∉ ev ∧ ∀ bytes, Event.printf bytes ∉ ev :=
  gate_closed_tick Libm.smallAngle 253 solar_params_init (by decide)

/-- C5 (as amended): partial command update. For every prior record and every
command made of a date/time token and a timezone token only (two tokens
separated by one `|`), `executeCommand` leaves latitude and longitude at their
prior values and sets timezone to `atoi` of the second token converted to the
`int8_t` field, which is the integer the token writes whenever that token is an
optional minus sign and decimal digits with a value in -128..127; the command
`202412211508300|-11` sets 2024-12-21 15:08:30.0 and timezone -11; a command with
a single token leaves timezone, latitude and longitude unchanged. -/
theorem partial_command_update {F : Type} (L : Libm F) (sp : SolarPositionParameters F)
    (t1 t2 junk : List Nat) (h1 : IsToken t1) (h2 : IsToken t2) :
    (∃ sp', executeCommand L (t1 ++ 124 :: t2 ++ 0 :: junk) sp = some sp'
      ∧ sp'.latitude = sp.latitude ∧ sp'.longitude = sp.longitude
      ∧ sp'.timezone = toInt8 (atoi t2)
      ∧ ∀ neg ds, t2 = intText neg ds → ds ≠ [] → (∀ d ∈ ds, isdigit d = true) →
          -128 ≤ intTextValue neg ds → intTextValue neg ds ≤ 127 →
          sp'.timezone = intTextValue neg ds)
    ∧ (∃ sp', executeCommand L (t1 ++ 0 :: junk) sp = some sp'
      ∧ sp'.timezone = sp.timezone ∧ sp'.latitude = sp.latitude
      ∧ sp'.longitude = sp.longitude)
    ∧ (∃ sp', executeCommand L (bytes "202412211508300|-11" ++ 0 :: junk) sp = some sp'
      ∧ sp'.year = 2024 ∧ sp'.month = 12 ∧ sp'.day = 21 ∧ sp'.hour = 15 ∧ sp'.minute = 8
      ∧ sp'.second = 30 ∧ sp'.hundreds = 0 ∧ sp'.timezone = -11
      ∧ sp'.latitude = sp.latitude ∧ sp'.longitude = sp.longitude) := by
  refine ⟨⟨_, executeCommand_two_tokens L sp t1 t2 junk h1 h2, rfl, rfl, rfl, ?_⟩,
    ⟨_, executeCommand_one_token L sp t1 junk h1, rfl, rfl, rfl⟩, ?_⟩
  · intro neg ds ht hne hds hlo hhi
    show toInt8 (atoi t2) = intTextValue neg ds
    rw [ht, atoi_intText neg ds hne hds, toInt8_toInt16, toInt8_of_range _ hlo hhi]
  · have e : bytes "202412211508300|-11" ++ 0 :: junk
        = bytes "202412211508300" ++ 124 :: bytes "-11" ++ 0 :: junk := by
      have : bytes "202412211508300|-11" = bytes "202412211508300" ++ 124 :: bytes "-11" := by
        decide
      rw [this]
    rw [e]
    refine ⟨_, executeCommand_two_tokens L sp _ _ junk (by decide) (by decide), ?_⟩
    refine ⟨?_, ?_, ?_, ?_, ?_, ?_, ?_, ?_, rfl, rfl⟩ <;> (dsimp only; decide)

/-- Witness of C5 (as amended): the tokens `202412211508300` and `-11` on the
compiled-in initial record. -/
theorem partial_command_update_witness :
    (IsToken (bytes "202412211508300") ∧ IsToken (bytes "-11"))
    ∧ ∃ sp', executeCommand Libm.smallAngle
        (bytes "202412211508300" ++ 124 :: bytes "-11" ++ 0 :: []) solar_params_init = some sp'
      ∧ sp'.latitude = (solar_params_init : SolarPositionParameters ℚ).latitude
      ∧ sp'.longitude = (solar_params_init : SolarPositionParameters ℚ).longitude
      ∧ sp'.timezone = toInt8 (atoi (bytes "-11")) :=
  ⟨⟨by decide, by decide⟩,
    let h := (partial_command_update Libm.smallAngle solar_params_init
      (bytes "202412211508300") (bytes "-11") [] (by decide) (by decide)).1
    h.elim fun sp' hsp => ⟨sp', hsp.1, hsp.2.1, hsp.2.2.1, hsp.2.2.2.1⟩⟩

/-- C5 as stated fails: the two-token command `202412211508300|200` does not
set timezone to 200, the integer value of its second token, but to -56. -/
theorem partial_command_update_counterexample :
    IsToken (bytes "202412211508300") ∧ IsToken (bytes "200")
    ∧ bytes "200" = intText false (bytes "200") ∧ intTextValue false (bytes "200") = 200
    ∧ (executeCommand Libm.smallAngle (bytes "202412211508300|200" ++ [0])
        solar_params_init).map (fun sp' => sp'.timezone) = some (-56)
    ∧ (executeCommand Libm.smallAngle (bytes "202412211508300|200" ++ [0])
        solar_params_init).map (fun sp' => sp'.timezone)
        ≠ some (intTextValue false (bytes "200")) := by
  refine ⟨by decide, by decide, by decide, by decide, by decide, by decide⟩

/-- C6: positional date/time parse. For every command whose first token is
exactly 15 decimal digits d1..d15, `executeCommand` sets year to the number
written d1d2d3d4, month to d5d6, day to d7d8, hour to d9d10, minute to d11d12,
second to d13d14 and hundreds to d15, whatever the prior record was. The command
may start with delimiters, and after the token it ends or goes on with `|`. -/
theorem positional_datetime_parse {F : Type} (L : Libm F) (sp : SolarPositionParameters F)
    (d1 d2 d3 d4 d5 d6 d7 d8 d9 d10 d11 d12 d13 d14 d15 : Nat) (k : Nat)
    (more junk : List Nat)
    (hd : ∀ d ∈ [d1, d2, d3, d4, d5, d6, d7, d8, d9, d10, d11, d12, d13, d14, d15],
      isdigit d = true)
    (hmore : more = [] ∨ ∃ r, more = 124 :: r) (hnul : 0 ∉ more) :
    ∃ sp', executeCommand L
        (List.replicate k 124
          ++ [d1, d2, d3, d4, d5, d6, d7, d8, d9, d10, d11, d12, d13, d14, d15]
          ++ more ++ 0 :: junk) sp = some sp'
      ∧ sp'.year = 1000 * (d1 - 48) + 100 * (d2 - 48) + 10 * (d3 - 48) + (d4 - 48)
      ∧ sp'.month = 10 * (d5 - 48) + (d6 - 48)
      ∧ sp'.day = 10 * (d7 - 48) + (d8 - 48)
      ∧ sp'.hour = 10 * (d9 - 48) + (d10 - 48)
      ∧ sp'.minute = 10 * (d11 - 48) + (d12 - 48)
      ∧ sp'.second = 10 * (d13 - 48) + (d14 - 48)
      ∧ sp'.hundreds = d15 - 48 := by
  have hdig : ∀ d ∈ [d1, d2, d3, d4, d5, d6, d7, d8, d9, d10, d11, d12, d13, d14, d15],
      48 ≤ d ∧ d ≤ 57 := fun d h => (isdigit_iff d).mp (hd d h)
  have hbar : 124 ∉ [d1, d2, d3, d4, d5, d6, d7, d8, d9, d10, d11, d12, d13, d14, d15] :=
    fun h => by have := hdig 124 h; omega
  have hzero : 0 ∉ [d1, d2, d3, d4, d5, d6, d7, d8, d9, d10, d11, d12, d13, d14, d15] :=
    fun h => by have := hdig 0 h; omega
  have hstr : cString (List.replicate k 124
      ++ [d1, d2, d3, d4, d5, d6, d7, d8, d9, d10, d11, d12, d13, d14, d15]
      ++ more ++ 0 :: junk)
      = some (List.replicate k 124
          ++ [d1, d2, d3, d4, d5, d6, d7, d8, d9, d10, d11, d12, d13, d14, d15] ++ more) := by
    apply cString_append
    simp only [List.mem_append, not_or]
    exact ⟨⟨fun h => by have := List.eq_of_mem_replicate h; omega, hzero⟩, hnul⟩
  have htok : ∃ r1, strtok 124 (List.replicate k 124
      ++ [d1, d2, d3, d4, d5, d6, d7, d8, d9, d10, d11, d12, d13, d14, d15] ++ more)
      = (some [d1, d2, d3, d4, d5, d6, d7, d8, d9, d10, d11, d12, d13, d14, d15], r1) := by
    rw [List.append_assoc, strtok_leading]
    rcases hmore with rfl | ⟨r, rfl⟩
    · exact ⟨[], by rw [List.append_nil]; exact strtok_token 124 _ (by simp) hbar⟩
    · exact ⟨r, strtok_token_delim 124 _ r (by simp) hbar⟩
  obtain ⟨r1, htok⟩ := htok
  obtain ⟨sp', he, hy, hmo, hda, hho, hmi, hse, hhu⟩ :=
    executeCommand_datetime L sp _ _ _ r1 hstr htok
  have h1 := hdig d1 (by simp); have h2 := hdig d2 (by simp); have h3 := hdig d3 (by simp)
  have h4 := hdig d4 (by simp); have h5 := hdig d5 (by simp); have h6 := hdig d6 (by simp)
  have h7 := hdig d7 (by simp); have h8 := hdig d8 (by simp); have h9 := hdig d9 (by simp)
  have h10 := hdig d10 (by simp); have h11 := hdig d11 (by simp); have h12 := hdig d12 (by simp)
  have h13 := hdig d13 (by simp); have h14 := hdig d14 (by simp); have h15 := hdig d15 (by simp)
  rw [sscanf_15_digits _ _ _ _ _ _ _ _ _ _ _ _ _ _ _ hd] at hy hmo hda hho hmi hse hhu
  simp only [List.getD_cons_zero, List.getD_cons_succ, toUInt16_toInt16, toUInt8_toInt16,
    numeralAcc, List.foldl_cons, List.foldl_nil] at hy hmo hda hho hmi hse hhu
  refine ⟨sp', he, ?_, ?_, ?_, ?_, ?_, ?_, ?_⟩ <;> omega

/-- Witness of C6: the digits of `202412211508300`, followed by `|-11`. -/
theorem positional_datetime_parse_witness :
    ∃ sp', executeCommand Libm.smallAngle
        (List.replicate 0 124 ++ [50, 48, 50, 52, 49, 50, 50, 49, 49, 53, 48, 56, 51, 48, 48]
          ++ bytes "|-11" ++ 0 :: []) (solar_params_init : SolarPositionParameters ℚ) = some sp'
      ∧ sp'.year = 1000 * (50 - 48) + 100 * (48 - 48) + 10 * (50 - 48) + (52 - 48)
      ∧ sp'.month = 10 * (49 - 48) + (50 - 48)
      ∧ sp'.day = 10 * (50 - 48) + (49 - 48)
      ∧ sp'.hour = 10 * (49 - 48) + (53 - 48)
      ∧ sp'.minute = 10 * (48 - 48) + (56 - 48)
      ∧ sp'.second = 10 * (51 - 48) + (48 - 48)
      ∧ sp'.hundreds = 48 - 48 :=
  positional_datetime_parse Libm.smallAngle solar_params_init
    50 48 50 52 49 50 50 49 49 53 48 56 51 48 48 0 (bytes "|-11") [] (by decide)
    (Or.inr ⟨bytes "-11", by decide⟩) (by decide)

/-- C7 (as amended): protocol framing. For every stream of received bytes of
the form p ++ "<" ++ b ++ ">" (followed by any bytes s), where p contains no
`<`, b is non-empty, contains no `>` and no NUL byte and has at most 39 bytes,
`ClockAndDataSet` ignores all of p; while only a part of p ++ "<" ++ b has been
read it is still waiting, `solar_params` unchanged and `executeCommand` not
called; and on the `>` it calls `executeCommand` once, on a buffer whose string
is b, and returns with s unread. -/
theorem protocol_framing {F : Type} (L : Libm F) (sp : SolarPositionParameters F)
    (p b s : List Nat) (hp : 60 ∉ p) (_hne : b ≠ []) (hb : 62 ∉ b) (hnul : 0 ∉ b)
    (hlen : b.length ≤ 39) :
    ClockAndDataSet L sp (p ++ 60 :: b ++ 62 :: s) = ClockAndDataSet L sp (60 :: b ++ 62 :: s)
    ∧ (∀ q, q <+: p ++ 60 :: b → ∃ st, ClockAndDataSet L sp q = RxOutcome.waiting sp st)
    ∧ ∃ command, ClockAndDataSet L sp (p ++ 60 :: b ++ 62 :: s)
          = RxOutcome.returned (executeCommand L command sp) command s
        ∧ cString command = some b := by
  have hlen' : b.length ≤ 40 := by omega
  refine ⟨?_, ?_, ?_⟩
  · have h1 := ClockAndDataSet_frame L sp p b s hp hb hlen'
    have h2 := ClockAndDataSet_frame L sp [] b s (by simp) hb hlen'
    rw [List.nil_append] at h2
    rw [h1, h2]
  · intro q hq
    exact ClockAndDataSet_waiting L sp p b q hp hb hlen' hq
  · exact ⟨_, ClockAndDataSet_frame L sp p b s hp hb hlen', cString_buffer b hnul hlen⟩

/-- Witness of C7 (as amended): the stream `xx><202412211508300|-11>`. -/
theorem protocol_framing_witness :
    ClockAndDataSet Libm.smallAngle solar_params_init
        (bytes "xx>" ++ 60 :: bytes "202412211508300|-11" ++ 62 :: [])
      = ClockAndDataSet Libm.smallAngle solar_params_init
          (60 :: bytes "202412211508300|-11" ++ 62 :: [])
    ∧ (∀ q, q <+: bytes "xx>" ++ 60 :: bytes "202412211508300|-11" →
        ∃ st, ClockAndDataSet Libm.smallAngle solar_params_init q
          = RxOutcome.waiting solar_params_init st)
    ∧ ∃ command, ClockAndDataSet Libm.smallAngle solar_params_init
          (bytes "xx>" ++ 60 :: bytes "202412211508300|-11" ++ 62 :: [])
          = RxOutcome.returned (executeCommand Libm.smallAngle command solar_params_init)
              command []
        ∧ cString command = some (bytes "202412211508300|-11") :=
  protocol_framing Libm.smallAngle solar_params_init (bytes "xx>")
    (bytes "202412211508300|-11") [] (by decide) (by decide) (by decide) (by decide)
    (by decide)

/-- C7 as stated fails on a body with a NUL byte: for the stream `<2024`, NUL,
`1221>`, whose body b is non-empty, has no `>` and has 9 bytes,
`executeCommand` is called on the string `2024`, not on b. -/
theorem protocol_framing_counterexample :
    60 ∉ ([] : List Nat) ∧ bytes "2024" ++ 0 :: bytes "1221" ≠ []
    ∧ 62 ∉ bytes "2024" ++ 0 :: bytes "1221"
    ∧ (bytes "2024" ++ 0 :: bytes "1221").length ≤ 39
    ∧ ∃ command, ClockAndDataSet Libm.smallAngle solar_params_init
          ([] ++ 60 :: (bytes "2024" ++ 0 :: bytes "1221") ++ 62 :: [])
          = RxOutcome.returned (executeCommand Libm.smallAngle command solar_params_init)
              command []
        ∧ cString command = some (bytes "2024")
        ∧ cString command ≠ some (bytes "2024" ++ 0 :: bytes "1221") := by
  refine ⟨by decide, by decide, by decide, by decide,
    bytes "2024" ++ 0 :: bytes "1221" ++ List.replicate 31 0, ?_, by decide, by decide⟩
  exact ClockAndDataSet_frame Libm.smallAngle solar_params_init []
    (bytes "2024" ++ 0 :: bytes "1221") [] (by decide) (by decide) (by decide)

/-- C8 at a failing input: on the record 2024-12-21 15:08:30 with hundreds = 10,
which satisfies the clock invariant and has 1000 ≤ year ≤ 9999, the tick with
the gate open prints a frame whose date/time field is the 16 characters
`2024122115083010`: `%1d` prints the tick count 10 with two digits. -/
theorem telemetry_datetime_field_at_tick_10 :
    ClockInvariant ({ (solar_params_init : SolarPositionParameters ℚ) with hundreds := 10 })
    ∧ 1000 ≤ ({ (solar_params_init : SolarPositionParameters ℚ) with hundreds := 10 }).year
    ∧ ({ (solar_params_init : SolarPositionParameters ℚ) with hundreds := 10 }).year ≤ 9999
    ∧ ∃ sp' frame, ISR_RTC_CNT_vect Libm.smallAngle 2
          ({ (solar_params_init : SolarPositionParameters ℚ) with hundreds := 10 })
          = some (sp', [Event.intflagsClear, Event.ledToggle, Event.solarPosition,
              Event.printf frame])
        ∧ dateTimeField frame = bytes "2024122115083010"
        ∧ (dateTimeField frame).length = 16 := by
  refine ⟨by decide, by decide, by decide, _, _, rfl, by decide, by decide⟩

/-- C9: engine purity. For any two records that agree on year, month, day, hour,
minute, second, hundreds, latitude, longitude and timezone (and differ at most
in the stored elevation and azimuth), `calculate_solar_position` computes the
same elevation and azimuth; it leaves those ten fields unchanged; and invoking
it twice in a row gives the same record as invoking it once. -/
theorem engine_purity {F : Type} [DoubleArith F] (L : Libm F)
    (sp1 sp2 : SolarPositionParameters F)
    (h : sp1.year = sp2.year ∧ sp1.month = sp2.month ∧ sp1.day = sp2.day
      ∧ sp1.hour = sp2.hour ∧ sp1.minute = sp2.minute ∧ sp1.second = sp2.second
      ∧ sp1.hundreds = sp2.hundreds ∧ sp1.latitude = sp2.latitude
      ∧ sp1.longitude = sp2.longitude ∧ sp1.timezone = sp2.timezone) :
    ((calculate_solar_position L sp1).elevation = (calculate_solar_position L sp2).elevation
      ∧ (calculate_solar_position L sp1).azimuth = (calculate_solar_position L sp2).azimuth)
    ∧ ((calculate_solar_position L sp1).year = sp1.year
      ∧ (calculate_solar_position L sp1).month = sp1.month
      ∧ (calculate_solar_position L sp1).day = sp1.day
      ∧ (calculate_solar_position L sp1).hour = sp1.hour
      ∧ (calculate_solar_position L sp1).minute = sp1.minute
      ∧ (calculate_solar_position L sp1).second = sp1.second
      ∧ (calculate_solar_position L sp1).hundreds = sp1.hundreds
      ∧ (calculate_solar_position L sp1).latitude = sp1.latitude
      ∧ (calculate_solar_position L sp1).longitude = sp1.longitude
      ∧ (calculate_solar_position L sp1).timezone = sp1.timezone)
    ∧ calculate_solar_position L (calculate_solar_position L sp1)
        = calculate_solar_position L sp1 := by
  have hsame : calculate_solar_position L sp1 = calculate_solar_position L sp2 := by
    obtain ⟨h1, h2, h3, h4, h5, h6, h7, h8, h9, h10⟩ := h
    have e : sp1 = { sp2 with elevation := sp1.elevation, azimuth := sp1.azimuth } := by
      cases sp1; cases sp2; simp_all
    rw [e]
    exact calculate_solar_position_overwrite L sp2 _ _
  refine ⟨⟨by rw [hsame], by rw [hsame]⟩, ⟨rfl, rfl, rfl, rfl, rfl, rfl, rfl, rfl, rfl, rfl⟩, ?_⟩
  exact calculate_solar_position_overwrite L sp1 _ _

/-- Witness of C9: the compiled-in initial record and the same record with the
stored elevation and azimuth set to 0. -/
theorem engine_purity_witness :
    ((calculate_solar_position Libm.smallAngle
          (solar_params_init : SolarPositionParameters ℚ)).elevation
        = (calculate_solar_position Libm.smallAngle
            { (solar_params_init : SolarPositionParameters ℚ) with
              elevation := 0, azimuth := 0 }).elevation
      ∧ (calculate_solar_position Libm.smallAngle
          (solar_params_init : SolarPositionParameters ℚ)).azimuth
        = (calculate_solar_position Libm.smallAngle
            { (solar_params_init : SolarPositionParameters ℚ) with
              elevation := 0, azimuth := 0 }).azimuth)
    ∧ calculate_solar_position Libm.smallAngle
        (calculate_solar_position Libm.smallAngle
          (solar_params_init : SolarPositionParameters ℚ))
        = calculate_solar_position Libm.smallAngle solar_params_init :=
  let h := engine_purity Libm.smallAngle (solar_params_init : SolarPositionParameters ℚ)
    { (solar_params_init : SolarPositionParameters ℚ) with elevation := 0, azimuth := 0 }
    ⟨rfl, rfl, rfl, rfl, rfl, rfl, rfl, rfl, rfl, rfl⟩
  ⟨h.1, h.2.2⟩

/-- C10: the daylight-saving rule. For every year in 1900..2099 the values
31 - ((5*year/4 + 4) mod 7) and 31 - ((5*year/4 + 1) mod 7), which the code
computes as `march_last_sunday` and `october_last_sunday`, are the days of the
last Sunday of March and of October of that year in the Gregorian calendar; and
for every valid date of such a year `is_daylight_saving_time` is true if and
only if the date is on or after the last Sunday of March and strictly before the
last Sunday of October. -/
theorem daylight_saving_rule (y : Nat) (hy1 : 1900 ≤ y) (hy2 : y ≤ 2099) :
    (march_last_sunday (y : Int) = ((31 - (5 * y / 4 + 4) % 7 : Nat) : Int)
      ∧ IsLastSunday y 3 (31 - (5 * y / 4 + 4) % 7))
    ∧ (october_last_sunday (y : Int) = ((31 - (5 * y / 4 + 1) % 7 : Nat) : Int)
      ∧ IsLastSunday y 10 (31 - (5 * y / 4 + 1) % 7))
    ∧ ∀ m d ms os : Nat, 1 ≤ m → m ≤ 12 → 1 ≤ d → d ≤ daysInMonthOf y m →
        IsLastSunday y 3 ms → IsLastSunday y 10 os →
        (is_daylight_saving_time (y : Int) (m : Int) (d : Int) = true
          ↔ (3 < m ∨ (m = 3 ∧ ms ≤ d)) ∧ (m < 10 ∨ (m = 10 ∧ d < os))) := by
  refine ⟨⟨march_last_sunday_nat y (by omega), isLastSunday_march y hy1 hy2⟩,
    ⟨october_last_sunday_nat y (by omega), isLastSunday_october y hy1 hy2⟩, ?_⟩
  intro m d ms os _ _ _ _ hms hos
  have e1 := isLastSunday_unique y 3 _ _ hms (isLastSunday_march y hy1 hy2)
  have e2 := isLastSunday_unique y 10 _ _ hos (isLastSunday_october y hy1 hy2)
  unfold is_daylight_saving_time
  rw [march_last_sunday_nat y (by omega), october_last_sunday_nat y (by omega), ← e1, ← e2]
  split_ifs <;> simp <;> omega

/-- Witness of C10: in 2024 the last Sundays are 31 March and 27 October; 31
March 2024 is inside the daylight-saving period. -/
theorem daylight_saving_rule_witness :
    (march_last_sunday ((2024 : Nat) : Int) = ((31 - (5 * 2024 / 4 + 4) % 7 : Nat) : Int)
      ∧ IsLastSunday 2024 3 (31 - (5 * 2024 / 4 + 4) % 7))
    ∧ (october_last_sunday ((2024 : Nat) : Int) = ((31 - (5 * 2024 / 4 + 1) % 7 : Nat) : Int)
      ∧ IsLastSunday 2024 10 (31 - (5 * 2024 / 4 + 1) % 7))
    ∧ (is_daylight_saving_time ((2024 : Nat) : Int) ((3 : Nat) : Int) ((31 : Nat) : Int) = true
          ↔ (3 < 3 ∨ (3 = 3 ∧ 31 ≤ 31)) ∧ (3 < 10 ∨ (3 = 10 ∧ 31 < 27))) :=
  let h := daylight_saving_rule 2024 (by decide) (by decide)
  ⟨h.1, h.2.1, h.2.2 3 31 31 27 (by decide) (by decide) (by decide) (by decide)
    (isLastSunday_march 2024 (by decide) (by decide))
    (isLastSunday_october 2024 (by decide) (by decide))⟩

/-- C15: day rollover equals the Gregorian successor date. For every valid date
(year < 65535, month 1..12, day within the month) at 23:59:59 with
hundreds = 19, one tick with the gate open yields 00:00:00.0 on the next
calendar day: a valid date whose running day number is one more. In particular
February 28 goes to February 29 when `isLeapYear year` holds and to March 1
otherwise, February 29 goes to March 1, and the last day of any other month goes
to day 1 of the following month (of January of the next year after December). -/
theorem day_rollover_successor {F : Type} [DoubleArith F] (L : Libm F) (portb_in : Nat)
    (sp : SolarPositionParameters F) (hgate : portb_in &&& PIN1_bm ≠ 0)
    (hy : sp.year < 65535) (hm1 : 1 ≤ sp.month) (hm2 : sp.month ≤ 12) (hd1 : 1 ≤ sp.day)
    (hd2 : sp.day ≤ daysInMonthOf sp.year sp.month)
    (ht : sp.hour = 23 ∧ sp.minute = 59 ∧ sp.second = 59 ∧ sp.hundreds = 19) :
    ∃ sp' ev, ISR_RTC_CNT_vect L portb_in sp = some (sp', ev)
      ∧ (sp'.hour = 0 ∧ sp'.minute = 0 ∧ sp'.second = 0 ∧ sp'.hundreds = 0)
      ∧ (sp'.year, sp'.month, sp'.day) = nextDay sp.year sp.month sp.day
      ∧ (1 ≤ sp'.month ∧ sp'.month ≤ 12 ∧ 1 ≤ sp'.day
          ∧ sp'.day ≤ daysInMonthOf sp'.year sp'.month)
      ∧ dayNumber sp'.year sp'.month sp'.day = dayNumber sp.year sp.month sp.day + 1
      ∧ (sp.month = 2 → sp.day = 28 → isLeapYear sp.year = 1 →
          sp'.year = sp.year ∧ sp'.month = 2 ∧ sp'.day = 29)
      ∧ (sp.month = 2 → sp.day = 28 → isLeapYear sp.year = 0 →
          sp'.year = sp.year ∧ sp'.month = 3 ∧ sp'.day = 1)
      ∧ (sp.month = 2 → sp.day = 29 → sp'.year = sp.year ∧ sp'.month = 3 ∧ sp'.day = 1)
      ∧ (sp.month ≠ 2 → sp.month ≠ 12 → sp.day = daysInMonthOf sp.year sp.month →
          sp'.year = sp.year ∧ sp'.month = sp.month + 1 ∧ sp'.day = 1)
      ∧ (sp.month = 12 → sp.day = 31 →
          sp'.year = sp.year + 1 ∧ sp'.month = 1 ∧ sp'.day = 1) := by
  obtain ⟨sp', hstep, hh0, hmi0, hs0, hu0, hyr, hmo, hda⟩ :=
    timeIncrement_rollover (calculate_solar_position L sp) hy hm1 hm2 hd1 hd2 ht
  simp only [calculate_solar_position_year, calculate_solar_position_month,
    calculate_solar_position_day] at hyr hmo hda
  have hinv : ClockInvariant (calculate_solar_position L sp) :=
    ⟨hm1, hm2, hd1, hd2, by rw [calculate_solar_position_hour, ht.1]; decide,
      by rw [calculate_solar_position_minute, ht.2.1]; decide,
      by rw [calculate_solar_position_second, ht.2.2.1]; decide,
      by rw [calculate_solar_position_hundreds, ht.2.2.2]; decide⟩
  obtain ⟨sp2, h2, hi2⟩ := timeIncrement_invariant _ hinv
  have e2 : sp2 = sp' := Option.some.inj (h2.symm.trans hstep)
  subst e2
  have hnum := dayNumber_nextDay sp.year sp.month sp.day hm1 hm2 hd2
  rw [← hyr, ← hmo, ← hda] at hnum
  have f1 := daysInMonthOf_facts sp.year sp.month hm1 hm2
  have hfeb : sp.month = 2 → daysInMonthOf sp.year sp.month
      = if isLeapYear sp.year = 1 then 29 else 28 := by
    intro h; rw [h]; rfl
  have hdec : sp.month = 12 → daysInMonthOf sp.year sp.month = 31 := by
    intro h; rw [h]; rfl
  refine ⟨sp2, _, ISR_open L portb_in sp sp2 hgate hstep, ⟨hh0, hmi0, hs0, hu0⟩, ?_,
    ⟨hi2.1, hi2.2.1, hi2.2.2.1, hi2.2.2.2.1⟩, hnum, ?_, ?_, ?_, ?_, ?_⟩
  · rw [hyr, hmo, hda]
  · intro a b c
    rw [hyr, hmo, hda]; unfold nextDay
    have := hfeb a; rw [if_pos c] at this
    rw [if_pos (by omega)]; exact ⟨rfl, a, by simp [b]⟩
  · intro a b c
    have c1 : ¬ isLeapYear sp.year = 1 := by omega
    rw [hyr, hmo, hda]; unfold nextDay
    have := hfeb a; rw [if_neg c1] at this
    rw [if_neg (by omega), if_pos (by omega)]; exact ⟨rfl, by simp [a], rfl⟩
  · intro a b
    rw [hyr, hmo, hda]; unfold nextDay
    have := hfeb a
    have h29 : daysInMonthOf sp.year sp.month ≤ 29 := by rw [this]; split <;> omega
    rw [if_neg (by omega), if_pos (by omega)]; exact ⟨rfl, by simp [a], rfl⟩
  · intro a b c
    rw [hyr, hmo, hda]; unfold nextDay
    rw [if_neg (by omega), if_pos (by omega)]; exact ⟨rfl, rfl, rfl⟩
  · intro a b
    rw [hyr, hmo, hda]; unfold nextDay
    have := hdec a
    rw [if_neg (by omega), if_neg (by omega)]; exact ⟨rfl, rfl, rfl⟩

/-- Witness of C15: 2024-02-28 23:59:59.19, a leap year, goes to 2024-02-29
00:00:00.0. -/
theorem day_rollover_successor_witness :
    ∃ sp' ev, ISR_RTC_CNT_vect Libm.smallAngle 2
        ({ (solar_params_init : SolarPositionParameters ℚ) with
            hundreds := 19, second := 59, minute := 59, hour := 23, day := 28, month := 2,
            year := 2024 }) = some (sp', ev)
      ∧ (sp'.hour = 0 ∧ sp'.minute = 0 ∧ sp'.second = 0 ∧ sp'.hundreds = 0)
      ∧ (sp'.year, sp'.month, sp'.day) = nextDay 2024 2 28
      ∧ sp'.year = 2024 ∧ sp'.month = 2 ∧ sp'.day = 29 :=
  let h := day_rollover_successor Libm.smallAngle 2
    ({ (solar_params_init : SolarPositionParameters ℚ) with
        hundreds := 19, second := 59, minute := 59, hour := 23, day := 28, month := 2,
        year := 2024 }) (by decide) (by decide) (by decide) (by decide) (by decide) (by decide)
    ⟨rfl, rfl, rfl, rfl⟩
  h.elim fun sp' h1 => h1.elim fun ev h2 =>
    ⟨sp', ev, h2.1, h2.2.1, h2.2.2.1, h2.2.2.2.2.2.1 rfl rfl (by decide)⟩

/-- C11: truncated date/time token. For every prior record and every command
whose first token is a string of n decimal digits with 1 ≤ n < 15,
`executeCommand` has a result, and every date/time field whose digit positions
(year 1-4, month 5-6, day 7-8, hour 9-10, minute 11-12, second 13-14,
hundreds 15) are entirely missing from the token is set to 0, whatever its prior
value; the command `2024` sets year = 2024 and month, day, hour, minute, second
and hundreds to 0. The command may start with delimiters, and after the token
it ends or goes on with `|`. -/
theorem truncated_datetime_token {F : Type} (L : Libm F) (sp : SolarPositionParameters F)
    (k : Nat) (ds more junk : List Nat) (hd : ∀ d ∈ ds, isdigit d = true)
    (hn1 : 1 ≤ ds.length) (hn2 : ds.length < 15)
    (hmore : more = [] ∨ ∃ r, more = 124 :: r) (hnul : 0 ∉ more) :
    (∃ sp', executeCommand L (List.replicate k 124 ++ ds ++ more ++ 0 :: junk) sp = some sp'
      ∧ (ds.length ≤ 4 → sp'.month = 0) ∧ (ds.length ≤ 6 → sp'.day = 0)
      ∧ (ds.length ≤ 8 → sp'.hour = 0) ∧ (ds.length ≤ 10 → sp'.minute = 0)
      ∧ (ds.length ≤ 12 → sp'.second = 0) ∧ sp'.hundreds = 0)
    ∧ ∃ sp', executeCommand L (bytes "2024" ++ 0 :: junk) sp = some sp'
      ∧ sp'.year = 2024 ∧ sp'.month = 0 ∧ sp'.day = 0 ∧ sp'.hour = 0 ∧ sp'.minute = 0
      ∧ sp'.second = 0 ∧ sp'.hundreds = 0 := by
  have hdig : ∀ d ∈ ds, 48 ≤ d ∧ d ≤ 57 := fun d h => (isdigit_iff d).mp (hd d h)
  have hbar : 124 ∉ ds := fun h => by have := hdig 124 h; omega
  have hzero : 0 ∉ ds := fun h => by have := hdig 0 h; omega
  have hne : ds ≠ [] := fun h => by rw [h] at hn1; simp at hn1
  have hstr : cString (List.replicate k 124 ++ ds ++ more ++ 0 :: junk)
      = some (List.replicate k 124 ++ ds ++ more) := by
    apply cString_append
    simp only [List.mem_append, not_or]
    exact ⟨⟨fun h => by have := List.eq_of_mem_replicate h; omega, hzero⟩, hnul⟩
  have htok : ∃ r1, strtok 124 (List.replicate k 124 ++ ds ++ more) = (some ds, r1) := by
    rw [List.append_assoc, strtok_leading]
    rcases hmore with rfl | ⟨r, rfl⟩
    · exact ⟨[], by rw [List.append_nil]; exact strtok_token 124 _ hne hbar⟩
    · exact ⟨r, strtok_token_delim 124 _ r hne hbar⟩
  obtain ⟨r1, htok⟩ := htok
  obtain ⟨sp', he, _, hmo, hda, hho, hmi, hse, hhu⟩ :=
    executeCommand_datetime L sp _ _ _ r1 hstr htok
  have hw : ∀ w ∈ [4, 2, 2, 2, 2, 2, 1], 1 ≤ w := by decide
  refine ⟨⟨sp', he, ?_, ?_, ?_, ?_, ?_, ?_⟩, ?_⟩
  · intro h; rw [hmo]; exact getD_sscanf_zero _ ds 1 1 hd hw (by simpa using h) (le_refl _)
  · intro h; rw [hda]; exact getD_sscanf_zero _ ds 2 2 hd hw (by simpa using h) (le_refl _)
  · intro h; rw [hho]; exact getD_sscanf_zero _ ds 3 3 hd hw (by simpa using h) (le_refl _)
  · intro h; rw [hmi]; exact getD_sscanf_zero _ ds 4 4 hd hw (by simpa using h) (le_refl _)
  · intro h; rw [hse]; exact getD_sscanf_zero _ ds 5 5 hd hw (by simpa using h) (le_refl _)
  · rw [hhu]; exact getD_sscanf_zero _ ds 6 6 hd hw (by simp; omega) (le_refl _)
  · refine ⟨_, executeCommand_one_token L sp (bytes "2024") junk (by decide), ?_⟩
    refine ⟨?_, ?_, ?_, ?_, ?_, ?_, ?_⟩ <;> (dsimp only; decide)

/-- Witness of C11: the command `20241` on the compiled-in initial record: the
month is given by one digit only, the fields after it are missing. -/
theorem truncated_datetime_token_witness :
    ∃ sp', executeCommand Libm.smallAngle
        (List.replicate 0 124 ++ bytes "20241" ++ [] ++ 0 :: [])
        (solar_params_init : SolarPositionParameters ℚ) = some sp'
      ∧ sp'.day = 0 ∧ sp'.hour = 0 ∧ sp'.minute = 0 ∧ sp'.second = 0 ∧ sp'.hundreds = 0 :=
  let h := (truncated_datetime_token Libm.smallAngle
    (solar_params_init : SolarPositionParameters ℚ) 0 (bytes "20241") [] [] (by decide)
    (by decide) (by decide) (Or.inl rfl) (by decide)).1
  h.elim fun sp' h1 =>
    ⟨sp', h1.1, h1.2.2.1 (by decide), h1.2.2.2.1 (by decide), h1.2.2.2.2.1 (by decide),
      h1.2.2.2.2.2.1 (by decide), h1.2.2.2.2.2.2⟩
/-- C12 (as amended): calendar validity after a command. For every prior record
and every command whose first token is 15 decimal digits, `executeCommand`
stores the values the digits spell without a range check: the record it leaves
satisfies the date and time conditions (month in 1..12, 1 ≤ day ≤
days-in-month(year, month), hour < 24, minute < 60, second < 60) if and only if
the numbers spelled by the digits do; hundreds, one digit, is always below
20. -/
theorem calendar_validity_after_command {F : Type} (L : Libm F)
    (sp : SolarPositionParameters F)
    (d1 d2 d3 d4 d5 d6 d7 d8 d9 d10 d11 d12 d13 d14 d15 : Nat) (k : Nat)
    (more junk : List Nat)
    (hd : ∀ d ∈ [d1, d2, d3, d4, d5, d6, d7, d8, d9, d10, d11, d12, d13, d14, d15],
      isdigit d = true)
    (hmore : more = [] ∨ ∃ r, more = 124 :: r) (hnul : 0 ∉ more) :
    ∃ sp', executeCommand L
        (List.replicate k 124
          ++ [d1, d2, d3, d4, d5, d6, d7, d8, d9, d10, d11, d12, d13, d14, d15]
          ++ more ++ 0 :: junk) sp = some sp'
      ∧ sp'.hundreds < 20
      ∧ (ClockInvariant sp' ↔
          (1 ≤ 10 * (d5 - 48) + (d6 - 48) ∧ 10 * (d5 - 48) + (d6 - 48) ≤ 12
            ∧ 1 ≤ 10 * (d7 - 48) + (d8 - 48)
            ∧ 10 * (d7 - 48) + (d8 - 48)
                ≤ daysInMonthOf (1000 * (d1 - 48) + 100 * (d2 - 48) + 10 * (d3 - 48) + (d4 - 48))
                    (10 * (d5 - 48) + (d6 - 48))
            ∧ 10 * (d9 - 48) + (d10 - 48) < 24 ∧ 10 * (d11 - 48) + (d12 - 48) < 60
            ∧ 10 * (d13 - 48) + (d14 - 48) < 60)) := by
  obtain ⟨sp', he, hy, hmo, hda, hho, hmi, hse, hhu⟩ :=
    executeCommand_15_digits L sp d1 d2 d3 d4 d5 d6 d7 d8 d9 d10 d11 d12 d13 d14 d15 k more junk
      hd hmore hnul
  have h15 := (isdigit_iff d15).mp (hd d15 (by simp))
  have hlt : sp'.hundreds < 20 := by rw [hhu]; omega
  refine ⟨sp', he, hlt, ?_⟩
  unfold ClockInvariant
  rw [hy, hmo, hda, hho, hmi, hse]
  constructor
  · rintro ⟨a1, a2, a3, a4, a5, a6, a7, _⟩
    exact ⟨a1, a2, a3, a4, a5, a6, a7⟩
  · rintro ⟨a1, a2, a3, a4, a5, a6, a7⟩
    exact ⟨a1, a2, a3, a4, a5, a6, a7, hlt⟩

/-- Witness of C12 (as amended): the digits of `202412211508300`, a valid date
and time. -/
theorem calendar_validity_after_command_witness :
    ∃ sp', executeCommand Libm.smallAngle
        (List.replicate 0 124 ++ [50, 48, 50, 52, 49, 50, 50, 49, 49, 53, 48, 56, 51, 48, 48]
          ++ [] ++ 0 :: []) (solar_params_init : SolarPositionParameters ℚ) = some sp'
      ∧ sp'.hundreds < 20 ∧ ClockInvariant sp' :=
  let h := calendar_validity_after_command Libm.smallAngle
    (solar_params_init : SolarPositionParameters ℚ)
    50 48 50 52 49 50 50 49 49 53 48 56 51 48 48 0 [] [] (by decide) (Or.inl rfl) (by decide)
  h.elim fun sp' h1 => ⟨sp', h1.1, h1.2.1, h1.2.2.mpr (by decide)⟩

/-- C12 as stated fails: the command `202413011508300`, whose first token is 15
decimal digits, leaves month = 13, so the record holds no valid date. -/
theorem calendar_validity_after_command_counterexample :
    (∀ d ∈ bytes "202413011508300", isdigit d = true)
    ∧ (bytes "202413011508300").length = 15
    ∧ (executeCommand Libm.smallAngle (bytes "202413011508300" ++ [0])
        solar_params_init).map (fun sp' => sp'.month) = some 13
    ∧ (executeCommand Libm.smallAngle (bytes "202413011508300" ++ [0])
        solar_params_init).map (fun sp' => decide (ClockInvariant sp')) = some false := by
  refine ⟨by decide, by decide, by decide, by decide⟩
/-- C13 at a failing input: in exact rational arithmetic the Julian Day of
2024-12-21 15:08:30 is 7086718457/2880 both for tick 0 and for tick 19, so the
value for tick 19 is not strictly greater: `hundreds / 36000` is an integer
division and gives 0. -/
theorem julian_day_ignores_tick :
    (calculate_julian_day 2024 12 21 15 8 30 0 : ℚ) = 7086718457 / 2880
    ∧ (calculate_julian_day 2024 12 21 15 8 30 19 : ℚ) = 7086718457 / 2880
    ∧ ¬ ((calculate_julian_day 2024 12 21 15 8 30 0 : ℚ)
          < calculate_julian_day 2024 12 21 15 8 30 19) := by
  have h0 : (calculate_julian_day 2024 12 21 15 8 30 0 : ℚ) = 7086718457 / 2880 := by
    have e1 : toInt16 6740 = 6740 := by decide
    have e2 : toInt16 13 = 13 := by decide
    have t1 : Int.tdiv 2024 100 = 20 := by decide
    have t2 : Int.tdiv 20 4 = 5 := by decide
    have f1 : ⌊(1461 / 4 : ℚ) * 6740⌋ = 2461785 := by
      rw [Int.floor_eq_iff]; norm_num
    have f2 : ⌊(306001 / 10000 : ℚ) * 13⌋ = 397 := by
      rw [Int.floor_eq_iff]; norm_num
    simp only [calculate_julian_day, DoubleArith.floor, DoubleArith.ofInt]
    norm_num [e1, e2, t1, t2, f1, f2]
  have h19 : (calculate_julian_day 2024 12 21 15 8 30 19 : ℚ)
      = calculate_julian_day 2024 12 21 15 8 30 0 :=
    calculate_julian_day_tick_free 2024 12 21 15 8 30 19 0 (by decide) (by decide)
  refine ⟨h0, by rw [h19, h0], ?_⟩
  rw [h19]
  exact lt_irrefl _
/-- C16 (as amended): accumulation buffer bound. `ClockAndDataSet` stores the
i-th byte of a frame body (0-based) at buffer index i with no check against the
40-byte capacity: after `<` and the first i bytes of the body (i ≤ 40) the
locals hold those bytes at the front of the buffer with `index = i`. So for a
frame body of n bytes (n ≤ 255) every store lands inside the buffer if and only
if n ≤ 40, and then the buffer handed to `executeCommand` holds the body at its
front; and, for a body without NUL bytes, the string handed to `executeCommand`
is NUL-terminated inside the buffer if and only if n ≤ 39. -/
theorem accumulation_buffer_bound {F : Type} (L : Libm F) (sp : SolarPositionParameters F)
    (b s : List Nat) (hb : 62 ∉ b) (_hn : b.length ≤ 255) :
    (∀ i, i ≤ b.length → i ≤ 40 →
        ClockAndDataSet L sp (60 :: b.take i) = RxOutcome.waiting sp (accState (b.take i))
        ∧ (accState (b.take i)).index = i
        ∧ (accState (b.take i)).command.take i = b.take i)
    ∧ (ClockAndDataSet L sp (60 :: b ++ 62 :: s) ≠ RxOutcome.fault ↔ b.length ≤ 40)
    ∧ (b.length ≤ 40 → ∃ command, ClockAndDataSet L sp (60 :: b ++ 62 :: s)
          = RxOutcome.returned (executeCommand L command sp) command s
        ∧ command.length = 40 ∧ command.take b.length = b)
    ∧ (0 ∉ b →
        ((∃ command, ClockAndDataSet L sp (60 :: b ++ 62 :: s)
            = RxOutcome.returned (executeCommand L command sp) command s
          ∧ (cString command).isSome = true) ↔ b.length ≤ 39)) := by
  have hframe : b.length ≤ 40 → ClockAndDataSet L sp (60 :: b ++ 62 :: s)
      = RxOutcome.returned (executeCommand L (b ++ List.replicate (40 - b.length) 0) sp)
          (b ++ List.replicate (40 - b.length) 0) s := by
    intro h
    have := ClockAndDataSet_frame L sp [] b s (by simp) hb h
    rwa [List.nil_append] at this
  have hover : 40 < b.length → ClockAndDataSet L sp (60 :: b ++ 62 :: s) = RxOutcome.fault := by
    intro h
    have := ClockAndDataSet_overflow L sp [] b s (by simp) hb h
    rwa [List.nil_append] at this
  refine ⟨?_, ?_, ?_, ?_⟩
  · intro i hi h40
    have hl : (b.take i).length = i := by simp only [List.length_take]; omega
    refine ⟨ClockAndDataSet_body_read L sp (b.take i)
      (fun h => hb (List.mem_of_mem_take h)) (by omega), hl, ?_⟩
    show (b.take i ++ List.replicate (40 - (b.take i).length) 0).take i = b.take i
    rw [List.take_append_of_le_length (by omega), List.take_of_length_le (by omega)]
  · constructor
    · intro h
      by_contra hlen
      exact h (hover (by omega))
    · intro h
      rw [hframe h]
      intro hc
      cases hc
  · intro h
    refine ⟨_, hframe h, by simp only [List.length_append, List.length_replicate]; omega, ?_⟩
    rw [List.take_append_of_le_length (le_refl _), List.take_of_length_le (le_refl _)]
  · intro hnul
    constructor
    · rintro ⟨command, hret, hsome⟩
      by_contra hlen
      by_cases h40 : b.length ≤ 40
      · rw [hframe h40] at hret
        injection hret with _ hcmd _
        have h0 : 40 - b.length = 0 := by omega
        rw [← hcmd, h0, List.replicate_zero, List.append_nil, cString_none b hnul] at hsome
        simp at hsome
      · rw [hover (by omega)] at hret
        cases hret
    · intro h
      refine ⟨_, hframe (by omega), ?_⟩
      rw [cString_buffer b hnul h]
      rfl

/-- Witness of C16 (as amended): the body `202412211508300|-11`, 19 bytes. -/
theorem accumulation_buffer_bound_witness :
    (ClockAndDataSet Libm.smallAngle (solar_params_init : SolarPositionParameters ℚ)
        (60 :: bytes "202412211508300|-11" ++ 62 :: []) ≠ RxOutcome.fault
      ↔ (bytes "202412211508300|-11").length ≤ 40)
    ∧ ((∃ command, ClockAndDataSet Libm.smallAngle
            (solar_params_init : SolarPositionParameters ℚ)
            (60 :: bytes "202412211508300|-11" ++ 62 :: [])
            = RxOutcome.returned (executeCommand Libm.smallAngle command solar_params_init)
                command []
          ∧ (cString command).isSome = true)
        ↔ (bytes "202412211508300|-11").length ≤ 39) :=
  let h := accumulation_buffer_bound Libm.smallAngle
    (solar_params_init : SolarPositionParameters ℚ) (bytes "202412211508300|-11") []
    (by decide) (by decide)
  ⟨h.2.1, h.2.2.2 (by decide)⟩

/-- C16 as stated fails on a body with a NUL byte: the body of 39 letters `A`
followed by a NUL has n = 40 bytes, yet the string handed to `executeCommand`
is NUL-terminated inside the buffer. -/
theorem accumulation_buffer_bound_counterexample :
    62 ∉ List.replicate 39 65 ++ [0] ∧ (List.replicate 39 65 ++ [0]).length = 40
    ∧ ¬ ((List.replicate 39 65 ++ [0]).length ≤ 39)
    ∧ ∃ command, ClockAndDataSet Libm.smallAngle
          (solar_params_init : SolarPositionParameters ℚ)
          (60 :: (List.replicate 39 65 ++ [0]) ++ 62 :: [])
          = RxOutcome.returned (executeCommand Libm.smallAngle command solar_params_init)
              command []
        ∧ (cString command).isSome = true
        ∧ cString command = some (List.replicate 39 65) := by
  refine ⟨by decide, by decide, by decide,
    (List.replicate 39 65 ++ [0]) ++ List.replicate 0 0, ?_, by decide, by decide⟩
  have := ClockAndDataSet_frame Libm.smallAngle
    (solar_params_init : SolarPositionParameters ℚ) [] (List.replicate 39 65 ++ [0]) []
    (by decide) (by decide) (by decide)
  rwa [List.nil_append] at this

/-- C14 (as amended): azimuth range. For every finite raw azimuth value, in
binary floating point of any precision p ≥ 6 bits, the final normalisation
(remainder modulo 360, then + 360 when negative) gives an azimuth a with
0 ≤ a ≤ 360; the azimuth that `calculate_solar_position` stores in the record is
the normalisation of such a raw value, whatever the libm functions return, and
so lies in the same range; in exact arithmetic the normalised and the stored
azimuth satisfy 0 ≤ a < 360. -/
theorem azimuth_range (p : Nat) (hp : 6 ≤ p) (raw : BinaryFloat p) :
    (0 ≤ (normalizeAzimuth raw).val ∧ (normalizeAzimuth raw).val ≤ 360)
    ∧ (∀ (L : Libm (BinaryFloat p)) (sp : SolarPositionParameters (BinaryFloat p)),
        ∃ r : BinaryFloat p, (calculate_solar_position L sp).azimuth = normalizeAzimuth r
          ∧ 0 ≤ (calculate_solar_position L sp).azimuth.val
          ∧ (calculate_solar_position L sp).azimuth.val ≤ 360)
    ∧ (∀ x : ℚ, 0 ≤ normalizeAzimuth x ∧ normalizeAzimuth x < 360)
    ∧ (∀ (L : Libm ℚ) (sp : SolarPositionParameters ℚ),
        ∃ r : ℚ, (calculate_solar_position L sp).azimuth = normalizeAzimuth r
          ∧ 0 ≤ (calculate_solar_position L sp).azimuth
          ∧ (calculate_solar_position L sp).azimuth < 360) := by
  refine ⟨normalizeAzimuth_val_range p hp raw, ?_, normalizeAzimuth_rat_range, ?_⟩
  · intro L sp
    obtain ⟨r, hr⟩ := calculate_solar_position_azimuth L sp
    refine ⟨r, hr, ?_⟩
    rw [hr]
    exact normalizeAzimuth_val_range p hp r
  · intro L sp
    obtain ⟨r, hr⟩ := calculate_solar_position_azimuth L sp
    refine ⟨r, hr, ?_⟩
    rw [hr]
    exact normalizeAzimuth_rat_range r

/-- Witness of C14 (as amended): binary64 and the raw azimuth -2^-60. -/
theorem azimuth_range_witness :
    0 ≤ (normalizeAzimuth (BinaryFloat.mk (-(1 / 2 ^ 60)) : BinaryFloat 53)).val
    ∧ (normalizeAzimuth (BinaryFloat.mk (-(1 / 2 ^ 60)) : BinaryFloat 53)).val ≤ 360 :=
  (azimuth_range 53 (by decide) (BinaryFloat.mk (-(1 / 2 ^ 60)))).1

/-- C14 as stated fails in floating point: the raw azimuth -2^-60, a finite
number of binary64 and of binary32, has the negative remainder -2^-60, and
adding 360.0 rounds to exactly 360: the normalised azimuth is 360, not below
360. -/
theorem azimuth_range_counterexample :
    (roundBinary 53 (-(1 / 2 ^ 60)) = -(1 / 2 ^ 60)
      ∧ (normalizeAzimuth (BinaryFloat.mk (-(1 / 2 ^ 60)) : BinaryFloat 53)).val = 360
      ∧ ¬ ((normalizeAzimuth (BinaryFloat.mk (-(1 / 2 ^ 60)) : BinaryFloat 53)).val < 360))
    ∧ (roundBinary 24 (-(1 / 2 ^ 60)) = -(1 / 2 ^ 60)
      ∧ (normalizeAzimuth (BinaryFloat.mk (-(1 / 2 ^ 60)) : BinaryFloat 24)).val = 360
      ∧ ¬ ((normalizeAzimuth (BinaryFloat.mk (-(1 / 2 ^ 60)) : BinaryFloat 24)).val < 360)) := by
  have habs : |(-(1 / 2 ^ 60) : ℚ)| = (2 : ℚ) ^ (-60 : ℤ) := by
    rw [abs_of_neg (by norm_num)]; norm_num
  have hne : (-(1 / 2 ^ 60) : ℚ) ≠ 0 := by norm_num
  have hlog : Int.log 2 ((2 : ℚ) ^ (-60 : ℤ)) = -60 := by
    have := Int.log_zpow (R := ℚ) (b := 2) (by decide) (-60)
    exact_mod_cast this
  have h53 : (normalizeAzimuth (BinaryFloat.mk (-(1 / 2 ^ 60)) : BinaryFloat 53)).val = 360 :=
    normalizeAzimuth_tiny_negative 53 (by decide) _ (by norm_num) (by norm_num) (by norm_num)
  have h24 : (normalizeAzimuth (BinaryFloat.mk (-(1 / 2 ^ 60)) : BinaryFloat 24)).val = 360 :=
    normalizeAzimuth_tiny_negative 24 (by decide) _ (by norm_num) (by norm_num) (by norm_num)
  refine ⟨⟨?_, h53, by rw [h53]; exact lt_irrefl _⟩, ⟨?_, h24, by rw [h24]; exact lt_irrefl _⟩⟩
  · unfold roundBinary
    rw [if_neg hne, habs, hlog]
    have hq : (-(1 / 2 ^ 60) : ℚ) / (2 : ℚ) ^ ((-60 : ℤ) - (((53 : ℕ) : ℤ) - 1))
        = ((-(2 ^ 52) : ℤ) : ℚ) := by
      norm_num
    rw [hq, roundEven_intCast]
    norm_num
  · unfold roundBinary
    rw [if_neg hne, habs, hlog]
    have hq : (-(1 / 2 ^ 60) : ℚ) / (2 : ℚ) ^ ((-60 : ℤ) - (((24 : ℕ) : ℤ) - 1))
        = ((-(2 ^ 23) : ℤ) : ℚ) := by
      norm_num
    rw [hq, roundEven_intCast]
    norm_num

end Attiny212Clock

